import Mathlib

/-!
# dsp: the dataset-to-guestinfo shim in front of vmtoolsd (`main.go`)

A shallow embedding of `main.go` and a verification of its command translation
and dispatch.

Modelling conventions.

* Go strings are Lean `String`s; a regular expression works on the characters
  of its subject (`String.data`).
* The Go standard library and the operating system are not part of the
  program.  Everything the program asks of them is a field of the record `OS`:
  the environment, the file system, `json.Unmarshal` at the two payload types,
  the order in which a `range` over a map visits its entries, the spare
  capacity `append` leaves behind, `syscall.Exec` and `(*exec.Cmd).Run`.
* A run of the program is a value of `Outcome`: the operating-system calls that
  start the real daemon, in order, and the way the process ends.
* `logArgs` only writes to the log when `DSP_DEBUG` is set and has no other
  effect; it is left out.
-/

namespace Dsp

/-! ## `fmt.Sprintf` for the verbs the program uses -/

/-- Text that `fmt.Sprintf` appends when operands are left over after the format. -/
def extraOperands (as : List String) : List Char :=
  "%!(EXTRA ".data ++ (String.intercalate ", " (as.map fun a => "string=" ++ a)).data ++ ")".data

/-- Interpretation of a format on string operands.  The verbs covered are `%s`
and `%%`, the only ones in `main.go`; a `%` before any other character is
outside this fragment and is copied through.  An operand is written out as it
is and is never read as a format again. -/
def sprintfAux : List Char → List String → List Char
  | [], [] => []
  | [], a :: as => extraOperands (a :: as)
  | c :: fmt, as =>
    if c = '%' then
      match fmt, as with
      | d :: fmt', a :: as' =>
        if d = 's' then a.data ++ sprintfAux fmt' as'
        else if d = '%' then '%' :: sprintfAux fmt' (a :: as')
        else c :: sprintfAux (d :: fmt') (a :: as')
      | d :: fmt', [] =>
        if d = 's' then "%!s(MISSING)".data ++ sprintfAux fmt' []
        else if d = '%' then '%' :: sprintfAux fmt' []
        else c :: sprintfAux (d :: fmt') []
      | [], as => "%!(NOVERB)".data ++ sprintfAux [] as
    else c :: sprintfAux fmt as

/-- The call `fmt.Sprintf(format, as...)` with string operands. -/
def Sprintf (format : String) (as : List String) : String :=
  ⟨sprintfAux format.data as⟩

/-! ## The regular expression `datasetRx` -/

/-- Character class `\s` of Go regular expressions: `[\t\n\f\r ]`. -/
def isSpace (c : Char) : Bool :=
  c = '\t' || c = '\n' || c = '\x0c' || c = '\r' || c = ' '

/-- Character class `.` without the `s` flag: any character but a line feed. -/
def isDot (c : Char) : Bool :=
  c != '\n'

/-- Greedy `x*` for a character class `x`, in continuation style: the
continuation `k` gets the characters consumed (after `acc`) and the rest of the
subject.  The longest run is tried first and shorter ones after it, which is
the preference order of Go's leftmost-first matching. -/
def rxStar {α : Type} (p : Char → Bool) (k : List Char → List Char → Option α) :
    List Char → List Char → Option α
  | acc, [] => k acc []
  | acc, c :: cs =>
    if p c then (rxStar p k (acc ++ [c]) cs).orElse fun _ => k acc (c :: cs)
    else k acc (c :: cs)

/-- Greedy `x+` for a character class `x`: one `x`, then `x*`. -/
def rxPlus {α : Type} (p : Char → Bool) (k : List Char → List Char → Option α) :
    List Char → Option α
  | [] => none
  | c :: cs => if p c then rxStar p k [c] cs else none

/-- A literal: the rest of the subject after it, when the subject starts with it. -/
def rxLit : List Char → List Char → Option (List Char)
  | [], s => some s
  | _ :: _, [] => none
  | c :: cs, d :: s => if c = d then rxLit cs s else none

/-- The character class `[gs]`: the character matched and the rest. -/
def rxGS : List Char → Option (Char × List Char)
  | [] => none
  | c :: s => if c = 'g' || c = 's' then some (c, s) else none

/-- The compiled expression `^\s*(datasets-[gs]et-entry)\s+(.+)\s*$` run on a
subject: the two submatches of the first match in preference order, if any. -/
def datasetRxMatch (s : List Char) : Option (List Char × List Char) :=
  rxStar isSpace (fun _ s1 =>                                -- ^\s*
    (rxLit "datasets-".data s1).bind fun s2 =>               -- (datasets-
    (rxGS s2).bind fun (c, s3) =>                            --  [gs]
    (rxLit "et-entry".data s3).bind fun s4 =>                --  et-entry)
    rxPlus isSpace (fun _ s5 =>                              -- \s+
      rxPlus isDot (fun m2 s6 =>                             -- (.+)
        rxStar isSpace (fun _ s7 =>                          -- \s*
          if s7 = [] then                                    -- $
            some ("datasets-".data ++ [c] ++ "et-entry".data, m2)
          else none) [] s6) s5) s4) [] s

/-- The call `datasetRx.FindStringSubmatch(s)`: `none` for a nil result,
otherwise the submatches `m[1]` and `m[2]`. -/
def datasetRx.FindStringSubmatch (s : String) : Option (String × String) :=
  (datasetRxMatch s.data).map fun m => (⟨m.1⟩, ⟨m.2⟩)

/-! ## Payloads -/

/-- The struct `datasetGetPayload`. -/
structure datasetGetPayload where
  Dataset : String
  Keys : List String
  deriving DecidableEq, Repr

/-- The struct `datasetEntry`; `Value` is the `json.RawMessage`, the bytes of
the value as they stand in the JSON text (empty when the field is absent). -/
structure datasetEntry where
  Key : String
  Value : String
  deriving DecidableEq, Repr

/-- The struct `datasetSetPayload`. -/
structure datasetSetPayload where
  Dataset : String
  Entries : List datasetEntry
  deriving DecidableEq, Repr

/-! ## The operating system and the Go runtime -/

/-- What `(*exec.Cmd).Run` returns: `nil` (the child exited with status 0), an
`*exec.ExitError` with its `ExitCode()`, or another error. -/
inductive RunResult where
  | success
  | exitError (code : Int)
  | otherError
  deriving DecidableEq, Repr

/-- The environment of a run. -/
structure OS where
  /-- The function `os.Getenv`. -/
  getenv : String → String
  /-- The function `os.Executable`; `none` is an error. -/
  executable : Option String
  /-- The function `filepath.EvalSymlinks`; `none` is an error. -/
  evalSymlinks : String → Option String
  /-- Whether `os.Stat` succeeds on a path. -/
  stat : String → Bool
  /-- The constant `runtime.GOOS`. -/
  goos : String
  /-- The function `json.Unmarshal` into a `datasetGetPayload`; `none` is an error. -/
  unmarshalGet : String → Option datasetGetPayload
  /-- The function `json.Unmarshal` into a `datasetSetPayload`; `none` is an error. -/
  unmarshalSet : String → Option datasetSetPayload
  /-- The order in which the `range` over the map built for the flag at the
  given argument index visits the entries. -/
  mapRange : Nat → List (String × String) → List (String × String)
  /-- A `range` over a map visits every entry once. -/
  mapRange_perm : ∀ i m, (mapRange i m).Perm m
  /-- Spare capacity `cap - len` of the slice `commonArgs` after the loop. -/
  spareCap : List String → Nat
  /-- Whether `syscall.Exec` replaces the process image (`false`: it returns an error). -/
  sysExec : String → List String → Bool
  /-- Result of the `Run` of the child started after the given number of earlier children. -/
  run : Nat → String → List String → RunResult

/-- A request to the operating system to start a program. -/
inductive Call where
  /-- The call `syscall.Exec(name, argv, os.Environ())`. -/
  | exec (name : String) (argv : List String)
  /-- The calls `exec.Command(name, args...)` and `Run`. -/
  | run (name : String) (args : List String)
  deriving DecidableEq, Repr

/-- The argument vector the started program sees: `exec.Command` puts the
program path in front of its arguments. -/
def Call.argv : Call → List String
  | .exec _ argv => argv
  | .run name args => name :: args

/-- How the process ends. -/
inductive Status where
  /-- The call `os.Exit(code)`, or a return from `main` (code 0). -/
  | exited (code : Int)
  /-- The process image was replaced by the daemon. -/
  | replaced
  /-- A run-time panic (index or slice bound out of range). -/
  | panicked
  /-- The model ran out of fuel. -/
  | outOfFuel
  deriving DecidableEq, Repr

/-- A run: the daemon starts requested, in order, and the end of the process. -/
structure Outcome where
  calls : List Call
  status : Status
  deriving DecidableEq, Repr

/-- Result of a part of `main` that can end the process. -/
inductive Result (α : Type) where
  | ok (a : α)
  | exit (code : Int)
  | panic
  | outOfFuel
  deriving DecidableEq, Repr

/-! ## Key mapping and payload translation -/

/-- The function `getGuestInfoKeyForDatasetNameAndKey`. -/
def getGuestInfoKeyForDatasetNameAndKey (name key : String) : String :=
  Sprintf "guestinfo.%s.%s" [name, key]

/-- The function `getGuestInfoKeysForDatasetGetPayload`: a slice of
`len(p.Keys)` empty strings, then `keys[i]` is assigned for every index. -/
def getGuestInfoKeysForDatasetGetPayload (p : datasetGetPayload) : List String :=
  (List.range p.Keys.length).foldl
    (fun keys i =>
      keys.set i (getGuestInfoKeyForDatasetNameAndKey p.Dataset (p.Keys.getD i "")))
    (List.replicate p.Keys.length "")

/-- The assignment `kvp[k] = v` on a `map[string]string`, held as a list of
entries with distinct keys: an entry with key `k` is overwritten, otherwise a
new entry is added. -/
def mapAssign : List (String × String) → String → String → List (String × String)
  | [], k, v => [(k, v)]
  | (k', v') :: rest, k, v =>
    if k' = k then (k, v) :: rest else (k', v') :: mapAssign rest k v

/-- The function `getGuestInfoKeyValuePairsForDatasetSetPayload`. -/
def getGuestInfoKeyValuePairsForDatasetSetPayload (p : datasetSetPayload) :
    List (String × String) :=
  p.Entries.foldl
    (fun kvp e => mapAssign kvp (getGuestInfoKeyForDatasetNameAndKey p.Dataset e.Key) e.Value)
    []

/-- The body of `case "datasets-get-entry"` of `main` after decoding: one
`info-get` command per mapped key is appended to `guestinfoArgs`. -/
def appendInfoGet (guestinfoArgs : List String) (p : datasetGetPayload) : List String :=
  (getGuestInfoKeysForDatasetGetPayload p).foldl
    (fun acc key => acc ++ [Sprintf "info-get %s" [key]]) guestinfoArgs

/-- The body of `case "datasets-set-entry"` of `main` after decoding, for the
flag at argument index `i`: one `info-set` command per map entry, in the order
of the `range`, is appended to `guestinfoArgs`. -/
def appendInfoSet (os : OS) (i : Nat) (guestinfoArgs : List String) (p : datasetSetPayload) :
    List String :=
  (os.mapRange i (getGuestInfoKeyValuePairsForDatasetSetPayload p)).foldl
    (fun acc kv => acc ++ [Sprintf "info-set %s %s" [kv.1, kv.2]]) guestinfoArgs

/-- The `switch m[1]` of `main` for the flag at argument index `i`. -/
def translate (os : OS) (i : Nat) (m : String × String) (guestinfoArgs : List String) :
    Result (List String) :=
  if m.1 = "datasets-get-entry" then
    match os.unmarshalGet m.2 with
    | none => .exit 1
    | some p => .ok (appendInfoGet guestinfoArgs p)
  else if m.1 = "datasets-set-entry" then
    match os.unmarshalSet m.2 with
    | none => .exit 1
    | some p => .ok (appendInfoSet os i guestinfoArgs p)
  else .ok guestinfoArgs

/-! ## The argument loop of `main` -/

/-- The loop `for i := 0; i < len(os.Args); i++` of `main`, from index `i` with
the two accumulators; every turn takes one unit of fuel.  An argument is read
with `args[i]?`, and a read outside the vector is a panic. -/
def rewriteLoop (os : OS) (args : List String) :
    Nat → Nat → List String → List String → Result (List String × List String)
  | 0, _, _, _ => .outOfFuel
  | fuel + 1, i, commonArgs, guestinfoArgs =>
    if i < args.length then
      match args[i]? with
      | none => .panic
      | some a =>
        if 0 < i ∧ a = "--cmd" ∧ i < args.length - 1 then
          match args[i + 1]? with
          | none => .panic
          | some b =>
            match datasetRx.FindStringSubmatch b with
            | some m =>
              match translate os i m guestinfoArgs with
              | .ok guestinfoArgs' => rewriteLoop os args fuel (i + 1 + 1) commonArgs guestinfoArgs'
              | .exit code => .exit code
              | .panic => .panic
              | .outOfFuel => .outOfFuel
            | none => rewriteLoop os args fuel (i + 1) (commonArgs ++ [a]) guestinfoArgs
        else rewriteLoop os args fuel (i + 1) (commonArgs ++ [a]) guestinfoArgs
    else .ok (commonArgs, guestinfoArgs)

/-- The argument loop of `main` on the whole vector: `commonArgs` and
`guestinfoArgs` after it.  The fuel covers one turn per argument and the last
test of the loop condition. -/
def rewrite (os : OS) (args : List String) : Result (List String × List String) :=
  rewriteLoop os args (args.length + 1) 0 [] []

/-! ## Starting the daemon -/

/-- The function `getPathToRealVmtoolsd`; `none` stands for `os.Exit(1)`. -/
def getPathToRealVmtoolsd (os : OS) : Option String :=
  if os.getenv "DSP_VMTOOLSD" ≠ "" then some (os.getenv "DSP_VMTOOLSD")
  else
    match os.executable with
    | none => none
    | some programPath =>
      match os.evalSymlinks programPath with
      | none => none
      | some programPath => some (programPath ++ ".bin")

/-- The function `execAndExitOnError` for the child started after `n` earlier
ones: the call made, and the exit code when the function ends the process
(`none`: it returns). -/
def execAndExitOnError (os : OS) (n : Nat) (name : String) (args : List String) :
    Call × Option Int :=
  (Call.run name args,
    match os.run n name args with
    | .success => none
    | .exitError code => some code
    | .otherError => some 1)

/-- The function `execAndExit`. -/
def execAndExit (os : OS) (name : String) (args : List String) : Outcome :=
  if os.goos = "windows" then
    match args with
    | [] => ⟨[], .panicked⟩
    | _ :: rest =>
      match execAndExitOnError os 0 name rest with
      | (call, some code) => ⟨[call], .exited code⟩
      | (call, none) => ⟨[call], .exited 0⟩
  else if os.sysExec name args then ⟨[.exec name args], .replaced⟩
  else ⟨[.exec name args], .exited 1⟩

/-- Go's `append(s, xs...)` where `s` is the slice of length `len` at offset
`off` of an array with contents `arr`, whose capacity runs to the end of the
array: the array afterwards and the contents of the slice returned.  With
room left the operands are written into the array in place; otherwise a new
array is allocated and `arr` is untouched. -/
def goAppend (arr : List String) (off len : Nat) (xs : List String) :
    List String × List String :=
  if len + xs.length ≤ arr.length - off then
    let arr' := arr.take (off + len) ++ xs ++ arr.drop (off + len + xs.length)
    (arr', (arr'.drop off).take (len + xs.length))
  else
    (arr, (arr.drop off).take len ++ xs)

/-- The loop of the `default` case of `main`'s dispatch over the remaining
generated commands.  `arr` is the backing array of `commonArgs`, `len` the
length of `commonArgs`, `n` the number of children run so far.  The slice
expression `commonArgs[1:]` panics on an empty `commonArgs`. -/
def execEach (os : OS) (vmtoolsd : String) (len : Nat) :
    Nat → List String → List String → Outcome
  | _, _, [] => ⟨[], .exited 0⟩
  | n, arr, g :: rest =>
    if len < 1 then ⟨[], .panicked⟩
    else
      match execAndExitOnError os n vmtoolsd (goAppend arr 1 (len - 1) ["--cmd", g]).2 with
      | (call, some code) => ⟨[call], .exited code⟩
      | (call, none) =>
        let o := execEach os vmtoolsd len (n + 1) (goAppend arr 1 (len - 1) ["--cmd", g]).1 rest
        ⟨call :: o.calls, o.status⟩

/-- The `switch len(guestinfoArgs)` at the end of `main`. -/
def dispatch (os : OS) (vmtoolsd : String) (commonArgs guestinfoArgs : List String) : Outcome :=
  match guestinfoArgs with
  | [] => execAndExit os vmtoolsd commonArgs
  | [g] => execAndExit os vmtoolsd (commonArgs ++ ["--cmd", g])
  | _ :: _ :: _ =>
    execEach os vmtoolsd commonArgs.length 0
      (commonArgs ++ List.replicate (os.spareCap commonArgs) "") guestinfoArgs

/-- The function `main` on the argument vector `os.Args`. -/
def main (os : OS) (args : List String) : Outcome :=
  match getPathToRealVmtoolsd os with
  | none => ⟨[], .exited 1⟩
  | some vmtoolsd =>
    if os.stat vmtoolsd then
      match rewrite os args with
      | .ok (commonArgs, guestinfoArgs) => dispatch os vmtoolsd commonArgs guestinfoArgs
      | .exit code => ⟨[], .exited code⟩
      | .panic => ⟨[], .panicked⟩
      | .outOfFuel => ⟨[], .outOfFuel⟩
    else ⟨[], .exited 1⟩

/-! ## Vocabulary of the statements -/

/-- Last raw value, in input order, among the entries with key `k` (empty when
there is none): the value that last-write-wins keeps. -/
def lastValue (entries : List datasetEntry) (k : String) : String :=
  match (entries.filter fun e => e.Key = k).getLast? with
  | some e => e.Value
  | none => ""

/-- No index after 0 holds the flag `--cmd` followed by a value that the
dataset pattern matches. -/
def NoDatasetFlag (args : List String) : Prop :=
  ∀ i < args.length, 0 < i → args[i]? = some "--cmd" →
    (args[i + 1]?).bind datasetRx.FindStringSubmatch = none

instance (args : List String) : Decidable (NoDatasetFlag args) := by
  unfold NoDatasetFlag
  infer_instance

/-! ## A concrete environment -/

/-- Some JSON texts of get payloads, each with the value `json.Unmarshal` stores for it. -/
def sampleGetPayloads : List (String × datasetGetPayload) :=
  [("\x7b\"dataset\":\"x\",\"keys\":[\"k1\"]\x7d", ⟨"x", ["k1"]⟩),
   ("\x7b\"dataset\":\"y\",\"keys\":[\"k2\",\"k3\"]\x7d", ⟨"y", ["k2", "k3"]⟩),
   ("\x7b\"keys\":[\"k\"]\x7d", ⟨"", ["k"]⟩)]

/-- Some JSON texts of set payloads, each with the value `json.Unmarshal` stores for it. -/
def sampleSetPayloads : List (String × datasetSetPayload) :=
  [("\x7b\"dataset\":\"ds\",\"entries\":[\x7b\"key\":\"a\",\"value\":1\x7d,\x7b\"key\":\"b\",\"value\":2\x7d]\x7d",
      ⟨"ds", [⟨"a", "1"⟩, ⟨"b", "2"⟩]⟩),
   ("\x7b\"dataset\":\"ds\",\"entries\":[\x7b\"key\":\"a\",\"value\":1\x7d,\x7b\"key\":\"a\",\"value\":\"z\"\x7d]\x7d",
      ⟨"ds", [⟨"a", "1"⟩, ⟨"a", "\"z\""⟩]⟩)]

/-- A Linux host: the program is installed as `/usr/bin/vmtoolsd`, the real
daemon next to it exists, the decoder knows the sample texts and rejects every
other text, maps are visited in insertion order, `commonArgs` has four spare
slots, and every start of the daemon succeeds. -/
def sampleOS : OS where
  getenv := fun _ => ""
  executable := some "/usr/bin/vmtoolsd"
  evalSymlinks := fun p => some p
  stat := fun _ => true
  goos := "linux"
  unmarshalGet := fun s => sampleGetPayloads.lookup s
  unmarshalSet := fun s => sampleSetPayloads.lookup s
  mapRange := fun _ m => m
  mapRange_perm := fun _ m => List.Perm.refl m
  spareCap := fun _ => 4
  sysExec := fun _ _ => true
  run := fun _ _ _ => .success

/-- The host `sampleOS`, except that the first child exits with status 3. -/
def failingOS : OS :=
  { sampleOS with run := fun n _ _ => if n = 0 then .exitError 3 else .success }

/-- An argument vector with one get command for two keys. -/
def twoKeyArgs : List String :=
  ["prog", "--verbose", "--cmd",
    "datasets-get-entry \x7b\"dataset\":\"y\",\"keys\":[\"k2\",\"k3\"]\x7d"]

/-- An argument vector with two get commands. -/
def twoFlagArgs : List String :=
  ["prog", "--cmd", "datasets-get-entry \x7b\"dataset\":\"x\",\"keys\":[\"k1\"]\x7d",
    "--cmd", "datasets-get-entry \x7b\"dataset\":\"y\",\"keys\":[\"k2\",\"k3\"]\x7d"]

/-- An argument vector with a get command that decodes and one that does not. -/
def badJsonArgs : List String :=
  ["prog", "--cmd", "datasets-get-entry \x7b\"dataset\":\"x\",\"keys\":[\"k1\"]\x7d",
    "--cmd", "datasets-get-entry \x7b\"keys\":7\x7d"]

/-! ## The translated pairs of a vector -/

/-- The flag test of the loop at index `i`: an index after 0 that holds `--cmd`
and is followed by a value that the dataset pattern matches. -/
def isFlagAt (args : List String) (i : Nat) : Bool :=
  decide (0 < i) && decide (args[i]? = some "--cmd") &&
    ((args[i + 1]?).bind datasetRx.FindStringSubmatch).isSome

/-- The indices of the translated pairs, in increasing order. -/
def translatedPairs (args : List String) : List Nat :=
  (List.range args.length).filter (isFlagAt args)

/-- The argument vector without the flag and the value of every translated pair. -/
def withoutPairs (args : List String) : List String :=
  (List.range args.length).filterMap fun k =>
    if isFlagAt args k || isFlagAt args (k - 1) then none else args[k]?

/-- The commands that the switch of `main` yields for the pair at index `i`
(none when the value does not match or does not decode). -/
def pairCommands (os : OS) (args : List String) (i : Nat) : List String :=
  match (args[i + 1]?).bind datasetRx.FindStringSubmatch with
  | some m =>
    match translate os i m [] with
    | .ok cmds => cmds
    | _ => []
  | none => []

/-- Whether the value of the pair at index `i` matches and fails to decode. -/
def pairFails (os : OS) (args : List String) (i : Nat) : Bool :=
  match (args[i + 1]?).bind datasetRx.FindStringSubmatch with
  | some m => decide (translate os i m [] = .exit 1)
  | none => false

/-! ## Further vocabulary and environments -/

/-- What `Run` returns for a child that exits with the given status: `nil` for
status 0, an `*exec.ExitError` carrying the status otherwise. -/
def childResult (code : Int) : RunResult :=
  if code = 0 then .success else .exitError code

/-- The exit status handed to the operating system for the caller to read,
when a daemon put in place of the process image ends with `daemonExit`: the
argument of `os.Exit` (0 on a return from `main`), or the daemon's own status
after a replacement.  The width to which the platform cuts a status when the
caller reads it is not modelled. -/
def Status.seenByCaller (daemonExit : Int) : Status → Option Int
  | .exited code => some code
  | .replaced => some daemonExit
  | .panicked => none
  | .outOfFuel => none

/-- The host `sampleOS`, except that maps are visited in reverse insertion order. -/
def reverseOS : OS :=
  { sampleOS with
    mapRange := fun _ m => m.reverse
    mapRange_perm := fun _ m => List.reverse_perm m }

/-- The host `sampleOS` as a Windows host whose daemon exits with status 3. -/
def windowsOS : OS :=
  { sampleOS with
    goos := "windows"
    run := fun _ _ _ => .exitError 3 }

/-- The host `sampleOS` with a decoder that knows one get payload without keys. -/
def emptyKeysOS : OS :=
  { sampleOS with
    unmarshalGet := fun s =>
      if s = "\x7b\"dataset\":\"x\",\"keys\":[]\x7d" then some ⟨"x", []⟩ else none }

/-- An argument vector with one set command for two distinct keys. -/
def twoEntryArgs : List String :=
  ["prog", "--cmd",
    "datasets-set-entry \x7b\"dataset\":\"ds\",\"entries\":[\x7b\"key\":\"a\",\"value\":1\x7d,\x7b\"key\":\"b\",\"value\":2\x7d]\x7d"]

/-- An argument vector with one get command without keys between other arguments. -/
def emptyKeysArgs : List String :=
  ["prog", "-v", "--cmd", "datasets-get-entry \x7b\"dataset\":\"x\",\"keys\":[]\x7d", "--last"]

/-- A get command whose JSON text is spread over three lines. -/
def multiLineValue : String :=
  "datasets-get-entry \x7b\n\"keys\":[\"k\"]\n\x7d"

/-! ## Formatting -/

theorem getGuestInfoKey_eq (name key : String) :
    getGuestInfoKeyForDatasetNameAndKey name key = "guestinfo." ++ name ++ "." ++ key := by
  apply String.ext
  simp [getGuestInfoKeyForDatasetNameAndKey, Sprintf, sprintfAux]

theorem sprintf_infoGet (key : String) : Sprintf "info-get %s" [key] = "info-get " ++ key := by
  apply String.ext
  simp [Sprintf, sprintfAux]

theorem sprintf_infoSet (k v : String) :
    Sprintf "info-set %s %s" [k, v] = "info-set " ++ k ++ " " ++ v := by
  apply String.ext
  simp [Sprintf, sprintfAux]

theorem string_append_left_cancel (a b c : String) (h : a ++ b = a ++ c) : b = c := by
  have h' := congrArg String.data h
  simp only [String.data_append] at h'
  exact String.ext (List.append_cancel_left h')

theorem getGuestInfoKey_injective (name : String) :
    Function.Injective (getGuestInfoKeyForDatasetNameAndKey name) := by
  intro k1 k2 h
  simp only [getGuestInfoKey_eq] at h
  exact string_append_left_cancel _ _ _ h

theorem foldl_snoc_eq_append_map {α β : Type} (f : α → β) (l : List α) (acc : List β) :
    l.foldl (fun acc a => acc ++ [f a]) acc = acc ++ l.map f := by
  induction l generalizing acc with
  | nil => simp
  | cons a l ih => simp [ih]

/-! ## The get payload -/

theorem foldl_range_set_spec {α β : Type} (f : α → β) (l : List α) (d : α) (z : β) (k : Nat)
    (hk : k ≤ l.length) :
    ((List.range k).foldl (fun acc i => acc.set i (f (l.getD i d)))
        (List.replicate l.length z)) =
      (l.take k).map f ++ List.replicate (l.length - k) z := by
  induction k with
  | zero => simp
  | succ k ih =>
    have hk' : k < l.length := hk
    rw [List.range_succ, List.foldl_append, ih (Nat.le_of_lt hk')]
    simp only [List.foldl_cons, List.foldl_nil]
    have hlen : ((l.take k).map f).length = k := by simp [Nat.min_eq_left (Nat.le_of_lt hk')]
    rw [List.set_append_right _ _ (by rw [hlen])]
    rw [hlen, Nat.sub_self]
    obtain ⟨m, hm⟩ : ∃ m, l.length - k = m + 1 := ⟨l.length - k - 1, by omega⟩
    rw [hm, List.replicate_succ, List.set_cons_zero]
    have hm' : l.length - (k + 1) = m := by omega
    rw [hm', List.take_succ, List.map_append]
    simp [List.getD_eq_getElem?_getD, List.getElem?_eq_getElem hk']

theorem getGuestInfoKeys_eq_map (p : datasetGetPayload) :
    getGuestInfoKeysForDatasetGetPayload p =
      p.Keys.map (getGuestInfoKeyForDatasetNameAndKey p.Dataset) := by
  unfold getGuestInfoKeysForDatasetGetPayload
  have h := foldl_range_set_spec (getGuestInfoKeyForDatasetNameAndKey p.Dataset) p.Keys "" ""
    p.Keys.length (Nat.le_refl _)
  simpa using h

theorem appendInfoGet_eq (g : List String) (p : datasetGetPayload) :
    appendInfoGet g p =
      g ++ p.Keys.map fun k => "info-get guestinfo." ++ p.Dataset ++ "." ++ k := by
  unfold appendInfoGet
  rw [foldl_snoc_eq_append_map, getGuestInfoKeys_eq_map, List.map_map]
  congr 1
  apply List.map_congr_left
  intro k _
  have h : "info-get " ++ "guestinfo." = "info-get guestinfo." := by decide
  simp only [Function.comp, sprintf_infoGet, getGuestInfoKey_eq]
  rw [← h]
  simp only [String.append_assoc]

/-! ## The set payload -/

theorem lastValue_append_singleton (es : List datasetEntry) (e : datasetEntry) (k : String) :
    lastValue (es ++ [e]) k = if e.Key = k then e.Value else lastValue es k := by
  unfold lastValue
  by_cases h : e.Key = k
  · simp [List.filter_append, h]
  · simp [List.filter_append, h]

theorem lastValue_of_nodup (es : List datasetEntry) (hnd : (es.map datasetEntry.Key).Nodup)
    (e : datasetEntry) (he : e ∈ es) : lastValue es e.Key = e.Value := by
  induction es using List.reverseRecOn with
  | nil => simp at he
  | append_singleton es e' ih =>
    rw [lastValue_append_singleton]
    simp only [List.map_append, List.map_cons, List.map_nil] at hnd
    have hnd' := List.nodup_append.1 hnd
    by_cases hk : e'.Key = e.Key
    · have : e = e' := by
        rcases List.mem_append.1 he with h | h
        · exfalso
          exact hnd'.2.2 (List.mem_map_of_mem _ h) (by simp [hk])
        · simpa using h
      simp [this]
    · rw [if_neg hk]
      rcases List.mem_append.1 he with h | h
      · exact ih hnd'.1 h
      · exfalso
        apply hk
        have : e = e' := by simpa using h
        rw [this]

theorem mapAssign_keys (m : List (String × String)) (k v : String) :
    (mapAssign m k v).map Prod.fst =
      if k ∈ m.map Prod.fst then m.map Prod.fst else m.map Prod.fst ++ [k] := by
  induction m with
  | nil => simp [mapAssign]
  | cons kv rest ih =>
    obtain ⟨k', v'⟩ := kv
    by_cases h : k' = k
    · simp [mapAssign, h]
    · have h' : ¬ k = k' := fun e => h e.symm
      simp only [mapAssign, if_neg h, List.map_cons, ih, List.mem_cons, h', false_or]
      split <;> simp

theorem mapAssign_nodup (m : List (String × String)) (k v : String)
    (h : (m.map Prod.fst).Nodup) : ((mapAssign m k v).map Prod.fst).Nodup := by
  rw [mapAssign_keys]
  split
  · exact h
  · rename_i hk
    exact List.nodup_append.2 ⟨h, by simp, by
      intro a ha hb
      have : a = k := by simpa using hb
      exact hk (this ▸ ha)⟩

theorem mem_mapAssign (m : List (String × String)) (k v : String)
    (h : (m.map Prod.fst).Nodup) (K V : String) :
    (K, V) ∈ mapAssign m k v ↔ (K = k ∧ V = v) ∨ (K ≠ k ∧ (K, V) ∈ m) := by
  induction m with
  | nil => simp [mapAssign]
  | cons kv rest ih =>
    obtain ⟨k', v'⟩ := kv
    simp only [List.map_cons, List.nodup_cons] at h
    by_cases hk : k' = k
    · subst hk
      simp only [mapAssign, if_true, List.mem_cons, Prod.mk.injEq]
      constructor
      · rintro (h1 | h1)
        · exact Or.inl h1
        · refine Or.inr ⟨?_, Or.inr h1⟩
          rintro rfl
          exact h.1 (List.mem_map_of_mem Prod.fst h1)
      · rintro (h1 | ⟨h1, h2 | h2⟩)
        · exact Or.inl h1
        · exact absurd h2.1 h1
        · exact Or.inr h2
    · simp only [mapAssign, if_neg hk, List.mem_cons, Prod.mk.injEq, ih h.2]
      constructor
      · rintro (h1 | h1 | h1)
        · exact Or.inr ⟨by rw [h1.1]; exact hk, Or.inl h1⟩
        · exact Or.inl h1
        · exact Or.inr ⟨h1.1, Or.inr h1.2⟩
      · rintro (h1 | ⟨h1, h2 | h2⟩)
        · exact Or.inr (Or.inl h1)
        · exact Or.inl h2
        · exact Or.inr (Or.inr ⟨h1, h2⟩)

theorem kvp_spec (φ : String → String) (es : List datasetEntry) :
    ((es.foldl (fun kvp e => mapAssign kvp (φ e.Key) e.Value) []).map Prod.fst).Nodup ∧
      (Function.Injective φ → ∀ K V,
        (K, V) ∈ es.foldl (fun kvp e => mapAssign kvp (φ e.Key) e.Value) [] ↔
          ∃ k ∈ es.map datasetEntry.Key, K = φ k ∧ V = lastValue es k) := by
  induction es using List.reverseRecOn with
  | nil => simp
  | append_singleton es e ih =>
    rw [List.foldl_append]
    simp only [List.foldl_cons, List.foldl_nil]
    refine ⟨mapAssign_nodup _ _ _ ih.1, ?_⟩
    intro hφ K V
    rw [mem_mapAssign _ _ _ ih.1, ih.2 hφ]
    simp only [List.map_append, List.map_cons, List.map_nil, List.mem_append,
      List.mem_singleton, lastValue_append_singleton]
    constructor
    · rintro (⟨rfl, rfl⟩ | ⟨hne, k, hk, rfl, rfl⟩)
      · exact ⟨e.Key, Or.inr rfl, rfl, by simp⟩
      · refine ⟨k, Or.inl hk, rfl, ?_⟩
        rw [if_neg]
        intro he
        exact hne (by rw [he])
    · rintro ⟨k, hk, rfl, rfl⟩
      by_cases he : e.Key = k
      · left
        simp [he]
      · right
        refine ⟨fun h => he (hφ h).symm, k, ?_, rfl, by simp [he]⟩
        rcases hk with hk | hk
        · exact hk
        · exact absurd hk.symm he

theorem kvp_perm (φ : String → String) (hφ : Function.Injective φ) (es : List datasetEntry) :
    (es.foldl (fun kvp e => mapAssign kvp (φ e.Key) e.Value) []).Perm
      ((es.map datasetEntry.Key).dedup.map fun k => (φ k, lastValue es k)) := by
  have hs := kvp_spec φ es
  refine (List.perm_ext_iff_of_nodup (List.Nodup.of_map _ hs.1) ?_).2 ?_
  · refine (List.nodup_dedup _).map ?_
    intro a b hab
    exact hφ (congrArg Prod.fst hab)
  · rintro ⟨K, V⟩
    rw [hs.2 hφ]
    simp only [List.mem_map, List.mem_dedup, Prod.mk.injEq]
    constructor
    · rintro ⟨k, ⟨e, he, rfl⟩, rfl, rfl⟩
      exact ⟨e.Key, ⟨e, he, rfl⟩, rfl, rfl⟩
    · rintro ⟨k, ⟨e, he, rfl⟩, h1, h2⟩
      exact ⟨e.Key, ⟨e, he, rfl⟩, h1.symm, h2.symm⟩

theorem infoSet_text (d k v : String) :
    Sprintf "info-set %s %s" [getGuestInfoKeyForDatasetNameAndKey d k, v] =
      "info-set guestinfo." ++ d ++ "." ++ k ++ " " ++ v := by
  have h : "info-set " ++ "guestinfo." = "info-set guestinfo." := by decide
  rw [sprintf_infoSet, getGuestInfoKey_eq, ← h]
  simp only [String.append_assoc]

theorem appendInfoSet_spec (os : OS) (i : Nat) (g : List String) (p : datasetSetPayload) :
    ∃ cmds, appendInfoSet os i g p = g ++ cmds ∧
      cmds.Perm ((p.Entries.map datasetEntry.Key).dedup.map fun k =>
        "info-set guestinfo." ++ p.Dataset ++ "." ++ k ++ " " ++ lastValue p.Entries k) := by
  refine ⟨(os.mapRange i (getGuestInfoKeyValuePairsForDatasetSetPayload p)).map
    fun kv => Sprintf "info-set %s %s" [kv.1, kv.2], ?_, ?_⟩
  · unfold appendInfoSet
    rw [foldl_snoc_eq_append_map]
  · have h1 := os.mapRange_perm i (getGuestInfoKeyValuePairsForDatasetSetPayload p)
    have h2 := kvp_perm (getGuestInfoKeyForDatasetNameAndKey p.Dataset)
      (getGuestInfoKey_injective p.Dataset) p.Entries
    have h3 := (h1.trans h2).map fun kv => Sprintf "info-set %s %s" [kv.1, kv.2]
    rw [List.map_map] at h3
    refine h3.trans (List.Perm.of_eq ?_)
    apply List.map_congr_left
    intro k _
    simp [infoSet_text]

/-! ## The argument loop, one turn at a time -/

theorem appendInfoGet_acc (g : List String) (p : datasetGetPayload) :
    appendInfoGet g p = g ++ appendInfoGet [] p := by
  simp [appendInfoGet_eq]

theorem appendInfoSet_acc (os : OS) (i : Nat) (g : List String) (p : datasetSetPayload) :
    appendInfoSet os i g p = g ++ appendInfoSet os i [] p := by
  simp [appendInfoSet, foldl_snoc_eq_append_map]

theorem translate_ok_or_exit (os : OS) (i : Nat) (m : String × String) :
    (∃ cmds, ∀ g, translate os i m g = .ok (g ++ cmds)) ∨
      (∀ g, translate os i m g = .exit 1) := by
  unfold translate
  by_cases h1 : m.1 = "datasets-get-entry"
  · simp only [if_pos h1]
    cases os.unmarshalGet m.2 with
    | none => exact Or.inr fun _ => rfl
    | some p => exact Or.inl ⟨appendInfoGet [] p, fun g => congrArg Result.ok (appendInfoGet_acc g p)⟩
  · simp only [if_neg h1]
    by_cases h2 : m.1 = "datasets-set-entry"
    · simp only [if_pos h2]
      cases os.unmarshalSet m.2 with
      | none => exact Or.inr fun _ => rfl
      | some p => exact Or.inl ⟨appendInfoSet os i [] p, fun g => congrArg Result.ok (appendInfoSet_acc os i g p)⟩
    · simp only [if_neg h2]
      exact Or.inl ⟨[], fun g => by simp⟩

theorem loop_done (os : OS) (args : List String) (fuel i : Nat) (c g : List String)
    (h : ¬ i < args.length) : rewriteLoop os args (fuel + 1) i c g = .ok (c, g) := by
  simp [rewriteLoop, h]

theorem loop_copy (os : OS) (args : List String) (fuel i : Nat) (c g : List String) (a : String)
    (ha : args[i]? = some a) (hno : ¬ (0 < i ∧ a = "--cmd" ∧ i < args.length - 1)) :
    rewriteLoop os args (fuel + 1) i c g = rewriteLoop os args fuel (i + 1) (c ++ [a]) g := by
  have hi : i < args.length := (List.getElem?_eq_some_iff.1 ha).1
  simp only [rewriteLoop, if_pos hi, ha, if_neg hno]

theorem loop_nomatch (os : OS) (args : List String) (fuel i : Nat) (c g : List String)
    (a b : String) (ha : args[i]? = some a)
    (hflag : 0 < i ∧ a = "--cmd" ∧ i < args.length - 1) (hb : args[i + 1]? = some b)
    (hm : datasetRx.FindStringSubmatch b = none) :
    rewriteLoop os args (fuel + 1) i c g = rewriteLoop os args fuel (i + 1) (c ++ [a]) g := by
  have hi : i < args.length := (List.getElem?_eq_some_iff.1 ha).1
  simp only [rewriteLoop, if_pos hi, ha, if_pos hflag, hb, hm]

theorem loop_match (os : OS) (args : List String) (fuel i : Nat) (c g : List String)
    (a b : String) (m : String × String) (ha : args[i]? = some a)
    (hflag : 0 < i ∧ a = "--cmd" ∧ i < args.length - 1) (hb : args[i + 1]? = some b)
    (hm : datasetRx.FindStringSubmatch b = some m) :
    rewriteLoop os args (fuel + 1) i c g =
      match translate os i m g with
      | .ok g' => rewriteLoop os args fuel (i + 1 + 1) c g'
      | .exit code => .exit code
      | .panic => .panic
      | .outOfFuel => .outOfFuel := by
  have hi : i < args.length := (List.getElem?_eq_some_iff.1 ha).1
  simp only [rewriteLoop, if_pos hi, ha, if_pos hflag, hb, hm]

/-- One turn of the loop at an index inside the vector: it copies the argument
and moves on by one, or it appends the commands of a matching pair and moves on
by two, or it ends the process with status 1. -/
theorem loop_turn (os : OS) (args : List String) (fuel i : Nat) (c g : List String)
    (hi : i < args.length) :
    (∃ a, args[i]? = some a ∧
        (¬ (0 < i ∧ a = "--cmd" ∧ i < args.length - 1) ∨
          ∃ b, args[i + 1]? = some b ∧ datasetRx.FindStringSubmatch b = none) ∧
        rewriteLoop os args (fuel + 1) i c g =
          rewriteLoop os args fuel (i + 1) (c ++ [a]) g) ∨
      (∃ b m, 0 < i ∧ args[i]? = some "--cmd" ∧ args[i + 1]? = some b ∧
        datasetRx.FindStringSubmatch b = some m ∧
        ((∃ cmds, (∀ g0, translate os i m g0 = .ok (g0 ++ cmds)) ∧
            rewriteLoop os args (fuel + 1) i c g =
              rewriteLoop os args fuel (i + 1 + 1) c (g ++ cmds)) ∨
          ((∀ g0, translate os i m g0 = .exit 1) ∧
            rewriteLoop os args (fuel + 1) i c g = .exit 1))) := by
  have ha : args[i]? = some args[i] := List.getElem?_eq_getElem hi
  by_cases hflag : 0 < i ∧ args[i] = "--cmd" ∧ i < args.length - 1
  · have hi1 : i + 1 < args.length := by omega
    have hb : args[i + 1]? = some args[i + 1] := List.getElem?_eq_getElem hi1
    cases hm : datasetRx.FindStringSubmatch args[i + 1] with
    | none =>
      exact Or.inl ⟨_, ha, Or.inr ⟨_, hb, hm⟩, loop_nomatch os args fuel i c g _ _ ha hflag hb hm⟩
    | some m =>
      refine Or.inr ⟨_, m, hflag.1, by rw [ha, hflag.2.1], hb, hm, ?_⟩
      have hstep := loop_match os args fuel i c g _ _ m ha hflag hb hm
      rcases translate_ok_or_exit os i m with ⟨cmds, hc⟩ | hx
      · refine Or.inl ⟨cmds, hc, ?_⟩
        rw [hstep, hc g]
      · refine Or.inr ⟨hx, ?_⟩
        rw [hstep, hx g]
  · exact Or.inl ⟨_, ha, Or.inl hflag, loop_copy os args fuel i c g _ ha hflag⟩

theorem findStringSubmatch_cmd : datasetRx.FindStringSubmatch "--cmd" = none := by decide

/-! ## The argument loop, as a whole -/

/-- The accumulators only grow, and `commonArgs` by at most the arguments left. -/
theorem loop_ok_shape (os : OS) (args : List String) :
    ∀ (fuel i : Nat) (c g c' g' : List String),
      rewriteLoop os args fuel i c g = .ok (c', g') →
      ∃ c2 g2, c' = c ++ c2 ∧ g' = g ++ g2 ∧ c2.length ≤ args.length - i := by
  intro fuel
  induction fuel with
  | zero => intro i c g c' g' h; simp [rewriteLoop] at h
  | succ fuel ih =>
    intro i c g c' g' h
    by_cases hi : i < args.length
    · rcases loop_turn os args fuel i c g hi with
        ⟨a, _, _, hstep⟩ | ⟨b, m, _, _, _, _, ⟨cmds, _, hstep⟩ | ⟨_, hstep⟩⟩
      · rw [hstep] at h
        obtain ⟨c2, g2, h1, h2, h3⟩ := ih _ _ _ _ _ h
        refine ⟨[a] ++ c2, g2, by simp [h1], h2, ?_⟩
        simp only [List.length_append, List.length_singleton]
        omega
      · rw [hstep] at h
        obtain ⟨c2, g2, h1, h2, h3⟩ := ih _ _ _ _ _ h
        exact ⟨c2, cmds ++ g2, h1, by simp [h2], by omega⟩
      · rw [hstep] at h
        cases h
    · rw [loop_done os args fuel i c g hi] at h
      cases h
      exact ⟨[], [], by simp, by simp, by simp⟩

/-- With fuel for every remaining turn and the last test, the loop returns its
accumulators or ends the process with status 1; it neither panics nor runs out
of fuel. -/
theorem loop_total (os : OS) (args : List String) :
    ∀ (fuel i : Nat) (c g : List String), args.length - i < fuel →
      (∃ r, rewriteLoop os args fuel i c g = .ok r) ∨
        rewriteLoop os args fuel i c g = .exit 1 := by
  intro fuel
  induction fuel with
  | zero => intro i c g hf; omega
  | succ fuel ih =>
    intro i c g hf
    by_cases hi : i < args.length
    · rcases loop_turn os args fuel i c g hi with
        ⟨a, _, _, hstep⟩ | ⟨b, m, _, _, hb, _, ⟨cmds, _, hstep⟩ | ⟨_, hstep⟩⟩
      · rw [hstep]
        exact ih _ _ _ (by omega)
      · rw [hstep]
        exact ih _ _ _ (by omega)
      · exact Or.inr hstep
    · exact Or.inl ⟨_, loop_done os args fuel i c g hi⟩

theorem loop_noflag (os : OS) (args : List String) (h : NoDatasetFlag args) :
    ∀ (fuel i : Nat) (c g : List String), args.length - i < fuel →
      rewriteLoop os args fuel i c g = .ok (c ++ args.drop i, g) := by
  intro fuel
  induction fuel with
  | zero => intro i c g hf; omega
  | succ fuel ih =>
    intro i c g hf
    by_cases hi : i < args.length
    · rcases loop_turn os args fuel i c g hi with
        ⟨a, ha, _, hstep⟩ | ⟨b, m, h0, hflag, hb, hm, _⟩
      · rw [hstep, ih _ _ _ (by omega), List.drop_eq_getElem_cons hi]
        have : args[i] = a := by
          have := List.getElem?_eq_getElem hi
          rw [ha] at this
          exact (Option.some.inj this).symm
        simp [this]
      · have := h i hi h0 hflag
        rw [hb] at this
        simp [hm] at this
    · rw [loop_done os args fuel i c g hi, List.drop_eq_nil_of_le (by omega)]
      simp

theorem translate_fail (os : OS) (j : Nat) (m : String × String) (g : List String)
    (hfail : (m.1 = "datasets-get-entry" ∧ os.unmarshalGet m.2 = none) ∨
      (m.1 = "datasets-set-entry" ∧ os.unmarshalSet m.2 = none)) :
    translate os j m g = .exit 1 := by
  unfold translate
  rcases hfail with ⟨h1, h2⟩ | ⟨h1, h2⟩
  · simp [h1, h2]
  · have : ¬ m.1 = "datasets-get-entry" := by rw [h1]; decide
    simp [this, h1, h2]

/-- A matching pair is never stepped over: the index before a flag cannot be a
flag whose value matches, since the value would be `--cmd`. -/
theorem flag_not_jumped (args : List String) (i j : Nat) (b : String) (m : String × String)
    (hij : i < j) (hb : args[i + 1]? = some b) (hm : datasetRx.FindStringSubmatch b = some m)
    (hfj : args[j]? = some "--cmd") : i + 1 + 1 ≤ j := by
  by_contra hlt
  have hj : j = i + 1 := by omega
  subst hj
  rw [hb] at hfj
  have : b = "--cmd" := Option.some.inj hfj
  rw [this, findStringSubmatch_cmd] at hm
  cases hm

theorem loop_decode_failure (os : OS) (args : List String) (j : Nat) (v : String)
    (m : String × String) (hj : 0 < j) (hfj : args[j]? = some "--cmd")
    (hvj : args[j + 1]? = some v) (hmj : datasetRx.FindStringSubmatch v = some m)
    (hfail : (m.1 = "datasets-get-entry" ∧ os.unmarshalGet m.2 = none) ∨
      (m.1 = "datasets-set-entry" ∧ os.unmarshalSet m.2 = none)) :
    ∀ (fuel i : Nat) (c g : List String), i ≤ j → j - i < fuel →
      rewriteLoop os args fuel i c g = .exit 1 := by
  have hlen : j + 1 < args.length := (List.getElem?_eq_some_iff.1 hvj).1
  intro fuel
  induction fuel with
  | zero => intro i c g _ hf; omega
  | succ fuel ih =>
    intro i c g hij hf
    have hi : i < args.length := by omega
    rcases loop_turn os args fuel i c g hi with
      ⟨a, ha, hwhy, hstep⟩ | ⟨b, m', _, _, hb, hm, ⟨cmds, hc, hstep⟩ | ⟨_, hstep⟩⟩
    · have hne : i ≠ j := by
        rintro rfl
        rw [hfj] at ha
        have ha' : a = "--cmd" := (Option.some.inj ha).symm
        rcases hwhy with hno | ⟨b, hb, hnone⟩
        · exact hno ⟨hj, ha', by omega⟩
        · rw [hvj] at hb
          rw [← Option.some.inj hb, hmj] at hnone
          cases hnone
      rw [hstep]
      exact ih _ _ _ (by omega) (by omega)
    · by_cases hne : i = j
      · subst hne
        rw [hvj] at hb
        rw [← Option.some.inj hb, hmj] at hm
        have hmm : m = m' := Option.some.inj hm
        have h1 := hc []
        rw [← hmm, translate_fail os i m [] hfail] at h1
        cases h1
      · have h2 := flag_not_jumped args i j b m' (by omega) hb hm hfj
        rw [hstep]
        exact ih _ _ _ h2 (by omega)
    · exact hstep

/-- From any index up to a matching pair whose translation the run survives,
the loop comes to stand right after the pair with the pair's commands
appended and nothing of the pair copied. -/
theorem loop_reaches (os : OS) (args : List String) (j : Nat) (v : String)
    (m : String × String) (hj : 0 < j) (hfj : args[j]? = some "--cmd")
    (hvj : args[j + 1]? = some v) (hmj : datasetRx.FindStringSubmatch v = some m) :
    ∀ (fuel i : Nat) (c g : List String) (r : List String × List String), i ≤ j →
      rewriteLoop os args fuel i c g = .ok r →
      ∃ fuel' c1 a cmds, (∀ g0, translate os j m g0 = .ok (g0 ++ cmds)) ∧
        rewriteLoop os args fuel' (j + 1 + 1) c1 (g ++ a ++ cmds) = .ok r ∧
        c1.length ≤ c.length + (j - i) := by
  have hlen : j + 1 < args.length := (List.getElem?_eq_some_iff.1 hvj).1
  intro fuel
  induction fuel with
  | zero => intro i c g r _ h; simp [rewriteLoop] at h
  | succ fuel ih =>
    intro i c g r hij h
    have hi : i < args.length := by omega
    rcases loop_turn os args fuel i c g hi with
      ⟨a, ha, hwhy, hstep⟩ | ⟨b, m', _, _, hb, hm, ⟨cmds, hc, hstep⟩ | ⟨_, hstep⟩⟩
    · have hne : i ≠ j := by
        rintro rfl
        rw [hfj] at ha
        have ha' : a = "--cmd" := (Option.some.inj ha).symm
        rcases hwhy with hno | ⟨b, hb, hnone⟩
        · exact hno ⟨hj, ha', by omega⟩
        · rw [hvj] at hb
          rw [← Option.some.inj hb, hmj] at hnone
          cases hnone
      rw [hstep] at h
      obtain ⟨fuel', c1, a', cmds, h1, h2, h3⟩ := ih _ _ _ _ (by omega) h
      refine ⟨fuel', c1, a', cmds, h1, h2, ?_⟩
      simp only [List.length_append, List.length_singleton] at h3
      omega
    · by_cases hne : i = j
      · subst hne
        rw [hvj] at hb
        rw [← Option.some.inj hb, hmj] at hm
        have hmm : m = m' := Option.some.inj hm
        rw [hstep] at h
        exact ⟨fuel, c, [], cmds, by rw [hmm]; exact hc, by simpa using h, by omega⟩
      · have h2 := flag_not_jumped args i j b m' (by omega) hb hm hfj
        rw [hstep] at h
        obtain ⟨fuel', c1, a', cmds', h1, h3, h4⟩ := ih _ _ _ _ h2 h
        exact ⟨fuel', c1, cmds ++ a', cmds', h1, by simpa using h3, by omega⟩
    · rw [hstep] at h
      cases h

/-! ## Dispatch -/

theorem execAndExit_calls_exec (os : OS) (name : String) (args : List String)
    (h : os.goos ≠ "windows") : (execAndExit os name args).calls = [Call.exec name args] := by
  unfold execAndExit
  rw [if_neg h]
  split <;> rfl

theorem execAndExit_calls_run (os : OS) (name a : String) (rest : List String)
    (h : os.goos = "windows") :
    (execAndExit os name (a :: rest)).calls = [Call.run name rest] := by
  simp only [execAndExit, execAndExitOnError, if_pos h]
  cases os.run 0 name rest <;> rfl

/-- The slice handed to a child is `commonArgs[1:]` followed by the operands,
whatever the spare capacity holds, and an in-place `append` leaves the elements
of `commonArgs` as they are. -/
theorem goAppend_tail (common junk xs : List String) (h : common ≠ []) :
    (goAppend (common ++ junk) 1 (common.length - 1) xs).2 = common.tail ++ xs ∧
      ∃ junk', (goAppend (common ++ junk) 1 (common.length - 1) xs).1 = common ++ junk' := by
  obtain ⟨x, t, rfl⟩ := List.exists_cons_of_ne_nil h
  unfold goAppend
  simp only [List.length_cons, Nat.add_sub_cancel, List.cons_append, List.length_append,
    List.tail_cons]
  split
  · have e1 : 1 + t.length = t.length + 1 := by omega
    have e2 : ((x :: (t ++ junk)).take (t.length + 1)) = x :: t := by simp
    have e3 : ((x :: (t ++ junk)).drop (t.length + 1 + xs.length)) = junk.drop xs.length := by
      rw [Nat.add_right_comm, List.drop_succ_cons, List.drop_append]
    simp only [e1, e2, e3, List.cons_append, List.drop_succ_cons, List.drop_zero]
    refine ⟨?_, xs ++ junk.drop xs.length, by simp⟩
    exact List.take_left' (by simp)
  · refine ⟨?_, junk, rfl⟩
    simp

theorem execEach_first_failure (os : OS) (vmtoolsd : String) (common : List String)
    (hc : common ≠ []) (code : Int) :
    ∀ (gen : List String) (n : Nat) (junk : List String) (j : Nat) (gj : String),
      gen[j]? = some gj →
      (∀ i g, i < j → gen[i]? = some g →
        os.run (n + i) vmtoolsd (common.tail ++ ["--cmd", g]) = .success) →
      os.run (n + j) vmtoolsd (common.tail ++ ["--cmd", gj]) = .exitError code →
      execEach os vmtoolsd common.length n (common ++ junk) gen =
        ⟨(gen.take (j + 1)).map fun g => Call.run vmtoolsd (common.tail ++ ["--cmd", g]),
          .exited code⟩ := by
  have hlen : ¬ common.length < 1 := by
    cases common with
    | nil => exact absurd rfl hc
    | cons x t => simp
  intro gen
  induction gen with
  | nil => intro n junk j gj h; simp at h
  | cons g rest ih =>
    intro n junk j gj hj hok hfail
    obtain ⟨h1, junk', h2⟩ := goAppend_tail common junk ["--cmd", g] hc
    cases j with
    | zero =>
      have hg : g = gj := by simpa using hj
      subst hg
      simp only [execEach, if_neg hlen, execAndExitOnError, h1]
      rw [Nat.add_zero] at hfail
      simp [hfail]
    | succ j =>
      have h0 := hok 0 g (by omega) (by simp)
      rw [Nat.add_zero] at h0
      simp only [execEach, if_neg hlen, execAndExitOnError, h1, h0, h2]
      have hj' : rest[j]? = some gj := by simpa using hj
      rw [ih (n + 1) junk' j gj hj'
        (fun i g' hi hg' => by
          have := hok (i + 1) g' (by omega) (by simpa using hg')
          rwa [← Nat.add_assoc, Nat.add_right_comm] at this)
        (by rwa [← Nat.add_assoc, Nat.add_right_comm] at hfail)]
      simp

theorem execEach_other_error (os : OS) (vmtoolsd : String) (common : List String)
    (hc : common ≠ []) :
    ∀ (gen : List String) (n : Nat) (junk : List String) (j : Nat) (gj : String),
      gen[j]? = some gj →
      (∀ i g, i < j → gen[i]? = some g →
        os.run (n + i) vmtoolsd (common.tail ++ ["--cmd", g]) = .success) →
      os.run (n + j) vmtoolsd (common.tail ++ ["--cmd", gj]) = .otherError →
      execEach os vmtoolsd common.length n (common ++ junk) gen =
        ⟨(gen.take (j + 1)).map fun g => Call.run vmtoolsd (common.tail ++ ["--cmd", g]),
          .exited 1⟩ := by
  have hlen : ¬ common.length < 1 := by
    cases common with
    | nil => exact absurd rfl hc
    | cons x t => simp
  intro gen
  induction gen with
  | nil => intro n junk j gj h; simp at h
  | cons g rest ih =>
    intro n junk j gj hj hok hfail
    obtain ⟨h1, junk', h2⟩ := goAppend_tail common junk ["--cmd", g] hc
    cases j with
    | zero =>
      have hg : g = gj := by simpa using hj
      subst hg
      simp only [execEach, if_neg hlen, execAndExitOnError, h1]
      rw [Nat.add_zero] at hfail
      simp [hfail]
    | succ j =>
      have h0 := hok 0 g (by omega) (by simp)
      rw [Nat.add_zero] at h0
      simp only [execEach, if_neg hlen, execAndExitOnError, h1, h0, h2]
      have hj' : rest[j]? = some gj := by simpa using hj
      rw [ih (n + 1) junk' j gj hj'
        (fun i g' hi hg' => by
          have := hok (i + 1) g' (by omega) (by simpa using hg')
          rwa [← Nat.add_assoc, Nat.add_right_comm] at this)
        (by rwa [← Nat.add_assoc, Nat.add_right_comm] at hfail)]
      simp

theorem execEach_all_succeed (os : OS) (vmtoolsd : String) (common : List String)
    (hc : common ≠ []) :
    ∀ (gen : List String) (n : Nat) (junk : List String),
      (∀ i g, gen[i]? = some g →
        os.run (n + i) vmtoolsd (common.tail ++ ["--cmd", g]) = .success) →
      execEach os vmtoolsd common.length n (common ++ junk) gen =
        ⟨gen.map fun g => Call.run vmtoolsd (common.tail ++ ["--cmd", g]), .exited 0⟩ := by
  have hlen : ¬ common.length < 1 := by
    cases common with
    | nil => exact absurd rfl hc
    | cons x t => simp
  intro gen
  induction gen with
  | nil => intro n junk _; simp [execEach]
  | cons g rest ih =>
    intro n junk hok
    obtain ⟨h1, junk', h2⟩ := goAppend_tail common junk ["--cmd", g] hc
    have h0 := hok 0 g (by simp)
    rw [Nat.add_zero] at h0
    simp only [execEach, if_neg hlen, execAndExitOnError, h1, h0, h2]
    rw [ih (n + 1) junk' (fun i g' hg' => by
      have := hok (i + 1) g' (by simpa using hg')
      rwa [← Nat.add_assoc, Nat.add_right_comm] at this)]
    simp

/-- Whatever the children return, the calls made are an initial segment of the
calls for all generated commands, each with `commonArgs[1:]` in front, and the
run does not panic. -/
theorem execEach_calls (os : OS) (vmtoolsd : String) (common : List String)
    (hc : common ≠ []) :
    ∀ (gen : List String) (n : Nat) (junk : List String),
      (∃ k, (execEach os vmtoolsd common.length n (common ++ junk) gen).calls =
          (gen.map fun g => Call.run vmtoolsd (common.tail ++ ["--cmd", g])).take k) ∧
        ∃ code, (execEach os vmtoolsd common.length n (common ++ junk) gen).status =
          .exited code := by
  have hlen : ¬ common.length < 1 := by
    cases common with
    | nil => exact absurd rfl hc
    | cons x t => simp
  intro gen
  induction gen with
  | nil => intro n junk; exact ⟨⟨0, by simp [execEach]⟩, 0, by simp [execEach]⟩
  | cons g rest ih =>
    intro n junk
    obtain ⟨h1, junk', h2⟩ := goAppend_tail common junk ["--cmd", g] hc
    simp only [execEach, if_neg hlen, execAndExitOnError, h1, h2]
    cases os.run n vmtoolsd (common.tail ++ ["--cmd", g]) with
    | success =>
      obtain ⟨⟨k, hk⟩, code, hcode⟩ := ih (n + 1) junk'
      exact ⟨⟨k + 1, by simp [hk]⟩, code, by simp [hcode]⟩
    | exitError code => exact ⟨⟨1, by simp⟩, code, rfl⟩
    | otherError => exact ⟨⟨1, by simp⟩, 1, rfl⟩

theorem rewrite_nil (os : OS) : rewrite os [] = .ok ([], []) := by
  simp [rewrite, rewriteLoop]

theorem rewrite_cons (os : OS) (a : String) (rest c g : List String)
    (h : rewrite os (a :: rest) = .ok (c, g)) : ∃ c2, c = a :: c2 := by
  unfold rewrite at h
  rw [loop_copy os (a :: rest) _ 0 [] [] a (by simp) (fun hh => absurd hh.1 (Nat.lt_irrefl 0))] at h
  obtain ⟨c2, g2, h1, _, _⟩ := loop_ok_shape os (a :: rest) _ _ _ _ _ _ h
  exact ⟨c2, by simpa using h1⟩

theorem rewrite_common_ne_nil (os : OS) (args c g : List String)
    (h : rewrite os args = .ok (c, g)) (hg : g ≠ []) : c ≠ [] := by
  cases args with
  | nil =>
    rw [rewrite_nil] at h
    cases h
    exact absurd rfl hg
  | cons a rest =>
    obtain ⟨c2, rfl⟩ := rewrite_cons os a rest c g h
    simp

theorem main_eq_dispatch (os : OS) (args : List String) (vmtoolsd : String)
    (common gen : List String) (hp : getPathToRealVmtoolsd os = some vmtoolsd)
    (hs : os.stat vmtoolsd = true) (hr : rewrite os args = .ok (common, gen)) :
    main os args = dispatch os vmtoolsd common gen := by
  simp [main, hp, hs, hr]

/-! ## The claims -/

/-- C1: for every dataset name and key, empty ones and ones with a `.` or a `%`
included, `getGuestInfoKeyForDatasetNameAndKey` is the concatenation of
`guestinfo.`, the name, `.` and the key, with nothing escaped; the function is
total, so there is no failure case. -/
theorem key_is_plain_concatenation (dataset key : String) :
    getGuestInfoKeyForDatasetNameAndKey dataset key = "guestinfo." ++ dataset ++ "." ++ key :=
  getGuestInfoKey_eq dataset key

/-- C2: a decoded get payload with dataset `d` and keys `k_1..k_N` adds exactly
`N` commands to the generated ones, the `i`-th being
`info-get guestinfo.<d>.<k_i>`, in input order and with duplicates kept; with
the dataset absent (the empty string of a fresh struct) the key is
`guestinfo..<k_i>`; and that is what `main`'s switch yields for the keyword
`datasets-get-entry` whenever the JSON text decodes to the payload. -/
theorem get_payload_commands (os : OS) (i : Nat) (json : String) (g : List String)
    (p : datasetGetPayload) (hdec : os.unmarshalGet json = some p) :
    translate os i ("datasets-get-entry", json) g = .ok (appendInfoGet g p) ∧
      appendInfoGet g p =
        g ++ p.Keys.map (fun k => "info-get guestinfo." ++ p.Dataset ++ "." ++ k) ∧
      (appendInfoGet [] p).length = p.Keys.length ∧
      (∀ n : Nat, (appendInfoGet [] p)[n]? =
        (p.Keys[n]?).map fun k => "info-get guestinfo." ++ p.Dataset ++ "." ++ k) ∧
      (p.Dataset = "" →
        appendInfoGet [] p = p.Keys.map fun k => "info-get guestinfo.." ++ k) := by
  refine ⟨by simp [translate, hdec], appendInfoGet_eq g p, by simp [appendInfoGet_eq],
    fun n => by simp [appendInfoGet_eq], fun hd => ?_⟩
  rw [appendInfoGet_eq, hd]
  have h : "info-get guestinfo." ++ "" ++ "." = "info-get guestinfo.." := by decide
  simp [h]

theorem get_payload_commands_witness :
    sampleOS.unmarshalGet "\x7b\"dataset\":\"y\",\"keys\":[\"k2\",\"k3\"]\x7d" =
        some ⟨"y", ["k2", "k3"]⟩ ∧
      appendInfoGet ["g0"] ⟨"y", ["k2", "k3"]⟩ =
        ["g0"] ++ ["k2", "k3"].map (fun k => "info-get guestinfo." ++ "y" ++ "." ++ k) :=
  ⟨by decide,
    (get_payload_commands sampleOS 2 "\x7b\"dataset\":\"y\",\"keys\":[\"k2\",\"k3\"]\x7d" ["g0"]
      ⟨"y", ["k2", "k3"]⟩ (by decide)).2.1⟩

/-- C3: a decoded set payload with dataset `d` whose entry keys are pairwise
distinct adds one command per entry, each
`info-set guestinfo.<d>.<key> <raw>` with `<raw>` the value text as it stands
(quotes kept, empty when absent), in the order the map is visited; for dataset
`ds` and the entries `a ↦ 1`, `b ↦ 2` these are `info-set guestinfo.ds.a 1`
and `info-set guestinfo.ds.b 2`. -/
theorem set_payload_commands_distinct_keys (os : OS) (i : Nat) (g : List String)
    (p : datasetSetPayload) (hnd : (p.Entries.map datasetEntry.Key).Nodup) :
    (∃ cmds, appendInfoSet os i g p = g ++ cmds ∧ cmds.length = p.Entries.length ∧
        cmds.Perm (p.Entries.map fun e =>
          "info-set guestinfo." ++ p.Dataset ++ "." ++ e.Key ++ " " ++ e.Value)) ∧
      (appendInfoSet os i [] ⟨"ds", [⟨"a", "1"⟩, ⟨"b", "2"⟩]⟩).Perm
        ["info-set guestinfo.ds.a 1", "info-set guestinfo.ds.b 2"] := by
  have key : ∀ q : datasetSetPayload, (q.Entries.map datasetEntry.Key).Nodup →
      ∃ cmds, appendInfoSet os i g q = g ++ cmds ∧
        cmds.Perm (q.Entries.map fun e =>
          "info-set guestinfo." ++ q.Dataset ++ "." ++ e.Key ++ " " ++ e.Value) := by
    intro q hq
    obtain ⟨cmds, h1, h2⟩ := appendInfoSet_spec os i g q
    refine ⟨cmds, h1, h2.trans (List.Perm.of_eq ?_)⟩
    rw [List.Nodup.dedup hq, List.map_map]
    apply List.map_congr_left
    intro e he
    simp [lastValue_of_nodup q.Entries hq e he]
  constructor
  · obtain ⟨cmds, h1, h2⟩ := key p hnd
    exact ⟨cmds, h1, by simpa using h2.length_eq, h2⟩
  · obtain ⟨cmds, h1, h2⟩ := appendInfoSet_spec os i []
      ⟨"ds", [⟨"a", "1"⟩, ⟨"b", "2"⟩]⟩
    rw [h1, List.nil_append]
    refine h2.trans (List.Perm.of_eq ?_)
    decide

theorem set_payload_commands_distinct_keys_witness :
    (["a", "b"] : List String).Nodup ∧
      (appendInfoSet sampleOS 2 [] ⟨"ds", [⟨"a", "1"⟩, ⟨"b", "2"⟩]⟩).Perm
        ["info-set guestinfo.ds.a 1", "info-set guestinfo.ds.b 2"] :=
  ⟨by decide,
    (set_payload_commands_distinct_keys sampleOS 2 [] ⟨"ds", [⟨"a", "1"⟩, ⟨"b", "2"⟩]⟩
      (by decide)).2⟩

/-- C4: a decoded set payload adds as many `info-set` commands as its entries
have distinct keys, one per distinct key, and the command of a key carries the
raw value of the last entry, in input order, with that key; two entries for
the key `a` of dataset `ds` give the one command of the later entry. -/
theorem set_payload_last_write_wins (os : OS) (i : Nat) (g : List String)
    (p : datasetSetPayload) :
    (∃ cmds, appendInfoSet os i g p = g ++ cmds ∧
      cmds.length = (p.Entries.map datasetEntry.Key).dedup.length ∧
      cmds.Perm ((p.Entries.map datasetEntry.Key).dedup.map fun k =>
        "info-set guestinfo." ++ p.Dataset ++ "." ++ k ++ " " ++ lastValue p.Entries k)) ∧
      appendInfoSet os i [] ⟨"ds", [⟨"a", "1"⟩, ⟨"a", "\"z\""⟩]⟩ =
        ["info-set guestinfo.ds.a \"z\""] := by
  constructor
  · obtain ⟨cmds, h1, h2⟩ := appendInfoSet_spec os i g p
    exact ⟨cmds, h1, by simpa using h2.length_eq, h2⟩
  · obtain ⟨cmds, h1, h2⟩ := appendInfoSet_spec os i []
      ⟨"ds", [⟨"a", "1"⟩, ⟨"a", "\"z\""⟩]⟩
    rw [h1, List.nil_append]
    have h3 : ((([⟨"a", "1"⟩, ⟨"a", "\"z\""⟩] : List datasetEntry).map
        datasetEntry.Key).dedup.map fun k =>
          "info-set guestinfo." ++ "ds" ++ "." ++ k ++ " " ++
            lastValue [⟨"a", "1"⟩, ⟨"a", "\"z\""⟩] k) =
        ["info-set guestinfo.ds.a \"z\""] := by decide
    rw [h3] at h2
    exact List.perm_singleton.1 h2

/-- C5: when no index after 0 holds `--cmd` followed by a value matching the
dataset pattern, the loop generates nothing and `commonArgs` is the argument
vector itself, and the run is the single call `execAndExit(vmtoolsd, args...)`:
with process replacement the daemon is started once with `args` as its
argument vector, and on Windows (for a vector that has its program name) once
with the arguments after the program name. -/
theorem no_dataset_flag_forwards_unchanged (os : OS) (args : List String) (vmtoolsd : String)
    (h : NoDatasetFlag args) (hp : getPathToRealVmtoolsd os = some vmtoolsd)
    (hs : os.stat vmtoolsd = true) :
    rewrite os args = .ok (args, []) ∧
      main os args = execAndExit os vmtoolsd args ∧
      (os.goos ≠ "windows" → (main os args).calls = [Call.exec vmtoolsd args]) ∧
      (os.goos = "windows" → args ≠ [] →
        (main os args).calls = [Call.run vmtoolsd args.tail]) := by
  have hr : rewrite os args = .ok (args, []) := by
    unfold rewrite
    rw [loop_noflag os args h _ 0 [] [] (by omega)]
    simp
  have hm : main os args = execAndExit os vmtoolsd args := by
    rw [main_eq_dispatch os args vmtoolsd _ _ hp hs hr]
    rfl
  refine ⟨hr, hm, fun hw => ?_, fun hw hne => ?_⟩
  · rw [hm, execAndExit_calls_exec os vmtoolsd args hw]
  · obtain ⟨a, rest, rfl⟩ := List.exists_cons_of_ne_nil hne
    rw [hm, execAndExit_calls_run os vmtoolsd a rest hw]
    rfl

theorem no_dataset_flag_forwards_unchanged_witness :
    NoDatasetFlag ["prog", "--cmd", "info-get guestinfo.a", "--cmd"] ∧
      rewrite sampleOS ["prog", "--cmd", "info-get guestinfo.a", "--cmd"] =
        .ok (["prog", "--cmd", "info-get guestinfo.a", "--cmd"], []) ∧
      (main sampleOS ["prog", "--cmd", "info-get guestinfo.a", "--cmd"]).calls =
        [Call.exec "/usr/bin/vmtoolsd.bin" ["prog", "--cmd", "info-get guestinfo.a", "--cmd"]] :=
  ⟨by decide,
    (no_dataset_flag_forwards_unchanged sampleOS ["prog", "--cmd", "info-get guestinfo.a", "--cmd"]
      "/usr/bin/vmtoolsd.bin" (by decide) (by decide) (by decide)).1,
    (no_dataset_flag_forwards_unchanged sampleOS ["prog", "--cmd", "info-get guestinfo.a", "--cmd"]
      "/usr/bin/vmtoolsd.bin" (by decide) (by decide) (by decide)).2.2.1 (by decide)⟩

theorem findStringSubmatch_sample :
    datasetRx.FindStringSubmatch
        "datasets-get-entry \x7b\"dataset\":\"x\",\"keys\":[\"k1\"]\x7d" =
      some ("datasets-get-entry", "\x7b\"dataset\":\"x\",\"keys\":[\"k1\"]\x7d") := by
  decide

theorem rewrite_sample (os : OS)
    (hdec : os.unmarshalGet "\x7b\"dataset\":\"x\",\"keys\":[\"k1\"]\x7d" =
      some ⟨"x", ["k1"]⟩) :
    rewrite os
        ["prog", "--cmd", "datasets-get-entry \x7b\"dataset\":\"x\",\"keys\":[\"k1\"]\x7d"] =
      .ok (["prog"], ["info-get guestinfo.x.k1"]) := by
  have ht : ∀ i, translate os i
      ("datasets-get-entry", "\x7b\"dataset\":\"x\",\"keys\":[\"k1\"]\x7d") [] =
        .ok ["info-get guestinfo.x.k1"] := by
    intro i
    have h : appendInfoGet [] ⟨"x", ["k1"]⟩ = ["info-get guestinfo.x.k1"] := by decide
    simp [translate, hdec, h]
  simp [rewrite, rewriteLoop, findStringSubmatch_sample, ht]

/-- C6: when the loop yields exactly one generated command `g`, the run is the
single call `execAndExit(vmtoolsd, commonArgs..., "--cmd", g)`, which starts
the daemon once: with process replacement the argument vector is
`commonArgs ++ ["--cmd", g]`, on Windows the arguments are those after the
program name.  The vector `prog --cmd 'datasets-get-entry <JSON>'` with the
JSON text of dataset `x` and key `k1` gives `commonArgs = [prog]`, the one
command `info-get guestinfo.x.k1`, and the call with
`[prog, --cmd, info-get guestinfo.x.k1]`. -/
theorem single_command_dispatch (os : OS) (args : List String) (vmtoolsd : String)
    (common : List String) (g : String) (hp : getPathToRealVmtoolsd os = some vmtoolsd)
    (hs : os.stat vmtoolsd = true) (hr : rewrite os args = .ok (common, [g])) :
    main os args = execAndExit os vmtoolsd (common ++ ["--cmd", g]) ∧
      (os.goos ≠ "windows" →
        (main os args).calls = [Call.exec vmtoolsd (common ++ ["--cmd", g])]) ∧
      (os.goos = "windows" →
        (main os args).calls = [Call.run vmtoolsd (common ++ ["--cmd", g]).tail]) ∧
      (os.unmarshalGet "\x7b\"dataset\":\"x\",\"keys\":[\"k1\"]\x7d" = some ⟨"x", ["k1"]⟩ →
        rewrite os ["prog", "--cmd",
            "datasets-get-entry \x7b\"dataset\":\"x\",\"keys\":[\"k1\"]\x7d"] =
          .ok (["prog"], ["info-get guestinfo.x.k1"]) ∧
        main os ["prog", "--cmd",
            "datasets-get-entry \x7b\"dataset\":\"x\",\"keys\":[\"k1\"]\x7d"] =
          execAndExit os vmtoolsd ["prog", "--cmd", "info-get guestinfo.x.k1"]) := by
  have hm : main os args = execAndExit os vmtoolsd (common ++ ["--cmd", g]) := by
    rw [main_eq_dispatch os args vmtoolsd _ _ hp hs hr]
    rfl
  refine ⟨hm, fun hw => ?_, fun hw => ?_, fun hdec => ⟨rewrite_sample os hdec, ?_⟩⟩
  · rw [hm, execAndExit_calls_exec os vmtoolsd _ hw]
  · rw [hm]
    cases common with
    | nil => exact execAndExit_calls_run os vmtoolsd _ _ hw
    | cons a rest => exact execAndExit_calls_run os vmtoolsd _ _ hw
  · rw [main_eq_dispatch os _ vmtoolsd _ _ hp hs (rewrite_sample os hdec)]
    rfl

theorem single_command_dispatch_witness :
    rewrite sampleOS ["prog", "--cmd",
        "datasets-get-entry \x7b\"dataset\":\"x\",\"keys\":[\"k1\"]\x7d"] =
      .ok (["prog"], ["info-get guestinfo.x.k1"]) ∧
    (main sampleOS ["prog", "--cmd",
        "datasets-get-entry \x7b\"dataset\":\"x\",\"keys\":[\"k1\"]\x7d"]).calls =
      [Call.exec "/usr/bin/vmtoolsd.bin" (["prog"] ++ ["--cmd", "info-get guestinfo.x.k1"])] :=
  ⟨by decide,
    (single_command_dispatch sampleOS
      ["prog", "--cmd", "datasets-get-entry \x7b\"dataset\":\"x\",\"keys\":[\"k1\"]\x7d"]
      "/usr/bin/vmtoolsd.bin" ["prog"] "info-get guestinfo.x.k1"
      (by decide) (by decide) (by decide)).2.1 (by decide)⟩

/-- C7, as stated, fails: in a vector with two matching `--cmd` pairs (at
indices 1 and 3) the later pair is translated as well; its flag and value are
not in `commonArgs` and its commands are among the generated ones. -/
theorem later_pair_is_translated_too :
    twoFlagArgs[1]? = some "--cmd" ∧
      ((twoFlagArgs[2]?).bind datasetRx.FindStringSubmatch).isSome = true ∧
      twoFlagArgs[3]? = some "--cmd" ∧
      ((twoFlagArgs[4]?).bind datasetRx.FindStringSubmatch).isSome = true ∧
      rewrite sampleOS twoFlagArgs =
        .ok (["prog"],
          ["info-get guestinfo.x.k1", "info-get guestinfo.y.k2", "info-get guestinfo.y.k3"]) ∧
      ¬ ∃ c g, rewrite sampleOS twoFlagArgs = .ok (c, g) ∧ "--cmd" ∈ c ∧
        g = ["info-get guestinfo.x.k1"] := by
  refine ⟨by decide, by decide, by decide, by decide, by decide, ?_⟩
  rintro ⟨c, g, h, _, hg⟩
  have h' : rewrite sampleOS twoFlagArgs =
      .ok (["prog"],
        ["info-get guestinfo.x.k1", "info-get guestinfo.y.k2", "info-get guestinfo.y.k3"]) := by
    decide
  rw [h'] at h
  cases h
  simp at hg

/-- C8: when a `--cmd` pair at an index after 0 has a value that matches the
dataset pattern and whose JSON text does not decode to the payload of its
keyword, the run ends with exit status 1 and the daemon is never started,
whatever the other arguments are and also after earlier pairs were translated. -/
theorem decode_failure_is_fatal (os : OS) (args : List String) (j : Nat) (v : String)
    (m : String × String) (hj : 0 < j) (hfj : args[j]? = some "--cmd")
    (hvj : args[j + 1]? = some v) (hmj : datasetRx.FindStringSubmatch v = some m)
    (hfail : (m.1 = "datasets-get-entry" ∧ os.unmarshalGet m.2 = none) ∨
      (m.1 = "datasets-set-entry" ∧ os.unmarshalSet m.2 = none)) :
    main os args = ⟨[], .exited 1⟩ := by
  have hlen : j + 1 < args.length := (List.getElem?_eq_some_iff.1 hvj).1
  have hr : rewrite os args = .exit 1 :=
    loop_decode_failure os args j v m hj hfj hvj hmj hfail _ 0 [] [] (Nat.zero_le _)
      (by omega)
  unfold main
  cases getPathToRealVmtoolsd os with
  | none => rfl
  | some vmtoolsd =>
    cases hs : os.stat vmtoolsd with
    | false => simp [hs]
    | true => simp [hs, hr]

theorem decode_failure_is_fatal_witness :
    badJsonArgs[3]? = some "--cmd" ∧
      datasetRx.FindStringSubmatch "datasets-get-entry \x7b\"keys\":7\x7d" =
        some ("datasets-get-entry", "\x7b\"keys\":7\x7d") ∧
      sampleOS.unmarshalGet "\x7b\"keys\":7\x7d" = none ∧
      main sampleOS badJsonArgs = ⟨[], .exited 1⟩ :=
  ⟨by decide, by decide, by decide,
    decode_failure_is_fatal sampleOS badJsonArgs 3 "datasets-get-entry \x7b\"keys\":7\x7d"
      ("datasets-get-entry", "\x7b\"keys\":7\x7d") (by decide) (by decide) (by decide)
      (by decide) (Or.inl ⟨rfl, by decide⟩)⟩

theorem main_eq_execEach (os : OS) (args : List String) (vmtoolsd : String)
    (common gen : List String) (hp : getPathToRealVmtoolsd os = some vmtoolsd)
    (hs : os.stat vmtoolsd = true) (hr : rewrite os args = .ok (common, gen))
    (h2 : 2 ≤ gen.length) :
    main os args = execEach os vmtoolsd common.length 0
      (common ++ List.replicate (os.spareCap common) "") gen := by
  rw [main_eq_dispatch os args vmtoolsd _ _ hp hs hr]
  match gen, h2 with
  | _ :: _ :: _, _ => rfl

/-- C9: with two or more generated commands the children are run in generated
order, each with `commonArgs[1:]` and its own `--cmd` pair.  If the child for
the command at position `j` (counting from 0) is the first not to succeed and
exits with code `code`, the children run are exactly those for the first
`j + 1` commands and the program exits with `code`; a first failure that is
not an exit status gives exit status 1; and if every child exits with 0, all
are run and the program exits with 0. -/
theorem children_stop_at_first_failure (os : OS) (args : List String) (vmtoolsd : String)
    (common gen : List String) (hp : getPathToRealVmtoolsd os = some vmtoolsd)
    (hs : os.stat vmtoolsd = true) (hr : rewrite os args = .ok (common, gen))
    (h2 : 2 ≤ gen.length) :
    (∀ (j : Nat) (gj : String) (code : Int), gen[j]? = some gj →
        (∀ i g, i < j → gen[i]? = some g →
          os.run i vmtoolsd (common.tail ++ ["--cmd", g]) = .success) →
        os.run j vmtoolsd (common.tail ++ ["--cmd", gj]) = .exitError code →
        main os args =
          ⟨(gen.take (j + 1)).map fun g => Call.run vmtoolsd (common.tail ++ ["--cmd", g]),
            .exited code⟩) ∧
      (∀ (j : Nat) (gj : String), gen[j]? = some gj →
        (∀ i g, i < j → gen[i]? = some g →
          os.run i vmtoolsd (common.tail ++ ["--cmd", g]) = .success) →
        os.run j vmtoolsd (common.tail ++ ["--cmd", gj]) = .otherError →
        main os args =
          ⟨(gen.take (j + 1)).map fun g => Call.run vmtoolsd (common.tail ++ ["--cmd", g]),
            .exited 1⟩) ∧
      ((∀ i g, gen[i]? = some g →
          os.run i vmtoolsd (common.tail ++ ["--cmd", g]) = .success) →
        main os args =
          ⟨gen.map fun g => Call.run vmtoolsd (common.tail ++ ["--cmd", g]), .exited 0⟩) := by
  have hne : common ≠ [] :=
    rewrite_common_ne_nil os args common gen hr (by
      intro h
      rw [h] at h2
      simp at h2)
  rw [main_eq_execEach os args vmtoolsd common gen hp hs hr h2]
  refine ⟨fun j gj code hj hok hfail => ?_, fun j gj hj hok hfail => ?_, fun hok => ?_⟩
  · exact execEach_first_failure os vmtoolsd common hne code gen 0 _ j gj hj
      (fun i g hi hg => by rw [Nat.zero_add]; exact hok i g hi hg)
      (by rw [Nat.zero_add]; exact hfail)
  · exact execEach_other_error os vmtoolsd common hne gen 0 _ j gj hj
      (fun i g hi hg => by rw [Nat.zero_add]; exact hok i g hi hg)
      (by rw [Nat.zero_add]; exact hfail)
  · exact execEach_all_succeed os vmtoolsd common hne gen 0 _
      (fun i g hg => by rw [Nat.zero_add]; exact hok i g hg)

theorem children_stop_at_first_failure_witness :
    rewrite failingOS twoKeyArgs =
        .ok (["prog", "--verbose"], ["info-get guestinfo.y.k2", "info-get guestinfo.y.k3"]) ∧
      failingOS.run 0 "/usr/bin/vmtoolsd.bin"
          (["prog", "--verbose"].tail ++ ["--cmd", "info-get guestinfo.y.k2"]) = .exitError 3 ∧
      main failingOS twoKeyArgs =
        ⟨(["info-get guestinfo.y.k2", "info-get guestinfo.y.k3"].take (0 + 1)).map fun g =>
            Call.run "/usr/bin/vmtoolsd.bin" (["prog", "--verbose"].tail ++ ["--cmd", g]),
          .exited 3⟩ :=
  ⟨by decide, by decide,
    (children_stop_at_first_failure failingOS twoKeyArgs "/usr/bin/vmtoolsd.bin"
      ["prog", "--verbose"] ["info-get guestinfo.y.k2", "info-get guestinfo.y.k3"]
      (by decide) (by decide) (by decide) (by decide)).1 0 "info-get guestinfo.y.k2" 3
      (by decide) (fun i _ hi _ => absurd hi (Nat.not_lt_zero i)) (by decide)⟩

/-- C10: `commonArgs` is non-empty whenever a command was generated, so
`commonArgs[1:]` is defined; with two or more generated commands the run does
not panic, the children started are, in generated order, an initial segment of
the calls with arguments `commonArgs[1:] ++ ["--cmd", g_i]`, and all of them
when every child succeeds.  This holds for every spare capacity of
`commonArgs`: an `append` that writes into the shared array does not change
what another child receives. -/
theorem child_arguments (os : OS) (args : List String) (vmtoolsd : String)
    (common gen : List String) (hp : getPathToRealVmtoolsd os = some vmtoolsd)
    (hs : os.stat vmtoolsd = true) (hr : rewrite os args = .ok (common, gen)) :
    (gen ≠ [] → common ≠ []) ∧
      (2 ≤ gen.length →
        (∃ k, (main os args).calls =
          (gen.map fun g => Call.run vmtoolsd (common.tail ++ ["--cmd", g])).take k) ∧
        (∃ code, (main os args).status = .exited code) ∧
        ((∀ i g, gen[i]? = some g →
            os.run i vmtoolsd (common.tail ++ ["--cmd", g]) = .success) →
          (main os args).calls =
            gen.map fun g => Call.run vmtoolsd (common.tail ++ ["--cmd", g])) ∧
        ∀ (n : Nat) (junk : List String), ∃ k,
          (execEach os vmtoolsd common.length n (common ++ junk) gen).calls =
            (gen.map fun g => Call.run vmtoolsd (common.tail ++ ["--cmd", g])).take k) := by
  refine ⟨rewrite_common_ne_nil os args common gen hr, fun h2 => ?_⟩
  have hne : common ≠ [] :=
    rewrite_common_ne_nil os args common gen hr (by
      intro h
      rw [h] at h2
      simp at h2)
  rw [main_eq_execEach os args vmtoolsd common gen hp hs hr h2]
  refine ⟨(execEach_calls os vmtoolsd common hne gen 0 _).1,
    (execEach_calls os vmtoolsd common hne gen 0 _).2, fun hok => ?_,
    fun n junk => (execEach_calls os vmtoolsd common hne gen n junk).1⟩
  rw [execEach_all_succeed os vmtoolsd common hne gen 0 _
    (fun i g hg => by rw [Nat.zero_add]; exact hok i g hg)]

theorem child_arguments_witness :
    rewrite sampleOS twoKeyArgs =
        .ok (["prog", "--verbose"], ["info-get guestinfo.y.k2", "info-get guestinfo.y.k3"]) ∧
      (main sampleOS twoKeyArgs).calls =
        ["info-get guestinfo.y.k2", "info-get guestinfo.y.k3"].map fun g =>
          Call.run "/usr/bin/vmtoolsd.bin" (["prog", "--verbose"].tail ++ ["--cmd", g]) :=
  ⟨by decide,
    ((child_arguments sampleOS twoKeyArgs "/usr/bin/vmtoolsd.bin"
      ["prog", "--verbose"] ["info-get guestinfo.y.k2", "info-get guestinfo.y.k3"]
      (by decide) (by decide) (by decide)).2 (by decide)).2.2.1 (fun _ _ _ => rfl)⟩

/-! ## The regular expression -/

theorem orElse_isSome {α : Type} (a : Option α) (b : Unit → Option α) :
    (a.orElse b).isSome = true ↔ a.isSome = true ∨ (b ()).isSome = true := by
  cases a <;> simp [Option.orElse]

theorem orElse_eq_some {α : Type} (a : Option α) (b : Unit → Option α) (x : α)
    (h : a.orElse b = some x) : a = some x ∨ b () = some x := by
  cases a with
  | none => exact Or.inr (by simpa [Option.orElse] using h)
  | some y => exact Or.inl (by simpa [Option.orElse] using h)

/-- A result of `x*` comes from a split of the subject into a run of `x` and a rest. -/
theorem rxStar_some {α : Type} (p : Char → Bool) (k : List Char → List Char → Option α)
    (x : α) : ∀ (s acc : List Char), rxStar p k acc s = some x →
      ∃ w rest, s = w ++ rest ∧ (∀ c ∈ w, p c = true) ∧ k (acc ++ w) rest = some x := by
  intro s
  induction s with
  | nil =>
    intro acc h
    exact ⟨[], [], rfl, by simp, by simpa [rxStar] using h⟩
  | cons c cs ih =>
    intro acc h
    by_cases hp : p c = true
    · simp only [rxStar, if_pos hp] at h
      rcases orElse_eq_some _ _ _ h with h1 | h1
      · obtain ⟨w, rest, hs, hw, hk⟩ := ih _ h1
        refine ⟨c :: w, rest, by simp [hs], ?_, by simpa using hk⟩
        intro d hd
        rcases List.mem_cons.1 hd with rfl | hd
        · exact hp
        · exact hw d hd
      · exact ⟨[], c :: cs, rfl, by simp, by simpa using h1⟩
    · simp only [rxStar, if_neg hp] at h
      exact ⟨[], c :: cs, rfl, by simp, by simpa using h⟩

theorem rxStar_isSome_here {α : Type} (p : Char → Bool)
    (k : List Char → List Char → Option α) (acc s : List Char)
    (h : (k acc s).isSome = true) : (rxStar p k acc s).isSome = true := by
  cases s with
  | nil => simpa [rxStar] using h
  | cons c cs =>
    by_cases hp : p c = true
    · simp only [rxStar, if_pos hp]
      exact (orElse_isSome _ _).2 (Or.inr h)
    · simpa [rxStar, hp] using h

/-- Every split of the subject into a run of `x` and a rest that the
continuation accepts makes `x*` succeed. -/
theorem rxStar_isSome {α : Type} (p : Char → Bool) (k : List Char → List Char → Option α) :
    ∀ (w acc rest : List Char), (∀ c ∈ w, p c = true) → (k (acc ++ w) rest).isSome = true →
      (rxStar p k acc (w ++ rest)).isSome = true := by
  intro w
  induction w with
  | nil =>
    intro acc rest _ h
    exact rxStar_isSome_here p k acc rest (by simpa using h)
  | cons c w ih =>
    intro acc rest hw h
    have hp : p c = true := hw c (List.mem_cons_self _ _)
    simp only [List.cons_append, rxStar, if_pos hp]
    refine (orElse_isSome _ _).2 (Or.inl ?_)
    exact ih _ _ (fun d hd => hw d (List.mem_cons_of_mem _ hd)) (by simpa using h)

theorem rxPlus_some {α : Type} (p : Char → Bool) (k : List Char → List Char → Option α)
    (x : α) (s : List Char) (h : rxPlus p k s = some x) :
    ∃ w rest, s = w ++ rest ∧ w ≠ [] ∧ (∀ c ∈ w, p c = true) ∧ k w rest = some x := by
  cases s with
  | nil => simp [rxPlus] at h
  | cons c cs =>
    by_cases hp : p c = true
    · simp only [rxPlus, if_pos hp] at h
      obtain ⟨w, rest, hs, hw, hk⟩ := rxStar_some p k x cs [c] h
      refine ⟨c :: w, rest, by simp [hs], by simp, ?_, by simpa using hk⟩
      intro d hd
      rcases List.mem_cons.1 hd with rfl | hd
      · exact hp
      · exact hw d hd
    · simp [rxPlus, hp] at h

theorem rxPlus_isSome {α : Type} (p : Char → Bool) (k : List Char → List Char → Option α)
    (w rest : List Char) (hne : w ≠ []) (hw : ∀ c ∈ w, p c = true)
    (h : (k w rest).isSome = true) : (rxPlus p k (w ++ rest)).isSome = true := by
  obtain ⟨c, w', rfl⟩ := List.exists_cons_of_ne_nil hne
  have hp : p c = true := hw c (List.mem_cons_self _ _)
  simp only [List.cons_append, rxPlus, if_pos hp]
  exact rxStar_isSome p k w' [c] rest (fun d hd => hw d (List.mem_cons_of_mem _ hd))
    (by simpa using h)

theorem rxLit_eq_some (lit s rest : List Char) : rxLit lit s = some rest ↔ s = lit ++ rest := by
  induction lit generalizing s with
  | nil => simp [rxLit, eq_comm]
  | cons c cs ih =>
    cases s with
    | nil => simp [rxLit]
    | cons d s =>
      by_cases h : c = d
      · subst h
        simp [rxLit, ih]
      · have h' : ¬ d = c := fun e => h e.symm
        simp [rxLit, h, h']

theorem rxGS_eq_some (s rest : List Char) (c : Char) :
    rxGS s = some (c, rest) ↔ s = c :: rest ∧ (c = 'g' ∨ c = 's') := by
  cases s with
  | nil => simp [rxGS]
  | cons d s =>
    by_cases h : d = 'g' ∨ d = 's'
    · have h' : (d = 'g' || d = 's') = true := by simpa using h
      simp only [rxGS, h', if_true, Option.some.injEq, Prod.mk.injEq, List.cons.injEq]
      constructor
      · rintro ⟨rfl, rfl⟩
        exact ⟨⟨rfl, rfl⟩, h⟩
      · rintro ⟨⟨rfl, rfl⟩, _⟩
        exact ⟨rfl, rfl⟩
    · have h' : ¬ (d = 'g' || d = 's') = true := by simpa using h
      simp only [rxGS, h', if_false]
      constructor
      · intro hh; cases hh
      · rintro ⟨⟨rfl, rfl⟩, hc⟩
        exact absurd hc h

/-- Soundness of the match: a result comes from a decomposition of the subject
along the expression, and the submatches are the keyword and the remainder. -/
theorem datasetRxMatch_some (s m1 m2 : List Char) (h : datasetRxMatch s = some (m1, m2)) :
    ∃ (w1 : List Char) (c : Char) (w2 w3 : List Char), (c = 'g' ∨ c = 's') ∧
      m1 = "datasets-".data ++ [c] ++ "et-entry".data ∧
      s = w1 ++ m1 ++ w2 ++ m2 ++ w3 ∧
      (∀ d ∈ w1, isSpace d = true) ∧ w2 ≠ [] ∧ (∀ d ∈ w2, isSpace d = true) ∧
      m2 ≠ [] ∧ (∀ d ∈ m2, isDot d = true) ∧ (∀ d ∈ w3, isSpace d = true) := by
  unfold datasetRxMatch at h
  obtain ⟨w1, r1, hs1, hw1, hk1⟩ := rxStar_some _ _ _ _ _ h
  obtain ⟨s2, hl1, hk2⟩ := Option.bind_eq_some.1 hk1
  obtain ⟨⟨c, s3⟩, hgs, hk3⟩ := Option.bind_eq_some.1 hk2
  obtain ⟨s4, hl2, hk4⟩ := Option.bind_eq_some.1 hk3
  obtain ⟨w2, r5, hs5, hne2, hw2, hk5⟩ := rxPlus_some _ _ _ _ hk4
  obtain ⟨r, r6, hs6, hner, hr, hk6⟩ := rxPlus_some _ _ _ _ hk5
  obtain ⟨w3, r7, hs7, hw3, hk7⟩ := rxStar_some _ _ _ _ _ hk6
  have hl1' := (rxLit_eq_some _ _ _).1 hl1
  have hgs' := (rxGS_eq_some _ _ _).1 hgs
  have hl2' := (rxLit_eq_some _ _ _).1 hl2
  by_cases h7 : r7 = []
  · simp only [h7, if_true, Option.some.injEq, Prod.mk.injEq] at hk7
    refine ⟨w1, c, w2, w3, hgs'.2, hk7.1.symm, ?_, hw1, hne2, hw2, ?_, ?_, hw3⟩
    · rw [hs1, hl1', hgs'.1, hl2', hs5, hs6, hs7, h7, ← hk7.1, ← hk7.2]
      simp
    · rw [← hk7.2]; exact hner
    · rw [← hk7.2]; exact hr
  · simp [h7] at hk7

/-- Completeness of the match: every decomposition of the subject along the
expression makes the match succeed. -/
theorem datasetRxMatch_isSome (w1 w2 r w3 : List Char) (c : Char) (hc : c = 'g' ∨ c = 's')
    (hw1 : ∀ d ∈ w1, isSpace d = true) (hne2 : w2 ≠ []) (hw2 : ∀ d ∈ w2, isSpace d = true)
    (hner : r ≠ []) (hr : ∀ d ∈ r, isDot d = true) (hw3 : ∀ d ∈ w3, isSpace d = true) :
    (datasetRxMatch
      (w1 ++ ("datasets-".data ++ [c] ++ "et-entry".data) ++ w2 ++ r ++ w3)).isSome = true := by
  unfold datasetRxMatch
  have e : w1 ++ ("datasets-".data ++ [c] ++ "et-entry".data) ++ w2 ++ r ++ w3 =
      w1 ++ ("datasets-".data ++ (c :: ("et-entry".data ++ (w2 ++ (r ++ (w3 ++ [])))))) := by
    simp
  rw [e]
  apply rxStar_isSome _ _ _ _ _ hw1
  have h1 : rxLit "datasets-".data
      ("datasets-".data ++ (c :: ("et-entry".data ++ (w2 ++ (r ++ (w3 ++ [])))))) =
        some (c :: ("et-entry".data ++ (w2 ++ (r ++ (w3 ++ []))))) :=
    (rxLit_eq_some _ _ _).2 rfl
  have h2 : rxGS (c :: ("et-entry".data ++ (w2 ++ (r ++ (w3 ++ []))))) =
      some (c, "et-entry".data ++ (w2 ++ (r ++ (w3 ++ [])))) :=
    (rxGS_eq_some _ _ _).2 ⟨rfl, hc⟩
  have h3 : rxLit "et-entry".data ("et-entry".data ++ (w2 ++ (r ++ (w3 ++ [])))) =
      some (w2 ++ (r ++ (w3 ++ []))) :=
    (rxLit_eq_some _ _ _).2 rfl
  simp only [h1, h2, h3, Option.some_bind]
  apply rxPlus_isSome _ _ _ _ hne2 hw2
  apply rxPlus_isSome _ _ _ _ hner hr
  apply rxStar_isSome _ _ _ _ _ hw3
  simp

/-! ## The loop as a function of the translated pairs -/

theorem isFlagAt_true (args : List String) (i : Nat) (h : isFlagAt args i = true) :
    0 < i ∧ args[i]? = some "--cmd" ∧
      ∃ v m, args[i + 1]? = some v ∧ datasetRx.FindStringSubmatch v = some m := by
  simp only [isFlagAt, Bool.and_eq_true, decide_eq_true_eq] at h
  refine ⟨h.1.1, h.1.2, ?_⟩
  cases hv : args[i + 1]? with
  | none => simp [hv] at h
  | some v =>
    cases hm : datasetRx.FindStringSubmatch v with
    | none => simp [hv, hm] at h
    | some m => exact ⟨v, m, rfl, hm⟩

theorem isFlagAt_succ_false (args : List String) (i : Nat) (h : isFlagAt args i = true) :
    isFlagAt args (i + 1) = false := by
  obtain ⟨_, _, v, m, hv, hm⟩ := isFlagAt_true args i h
  cases hf : isFlagAt args (i + 1) with
  | false => rfl
  | true =>
    have h2 := (isFlagAt_true args (i + 1) hf).2.1
    rw [hv] at h2
    rw [Option.some.inj h2, findStringSubmatch_cmd] at hm
    cases hm

theorem loop_at_flag (os : OS) (args : List String) (i : Nat) (h : isFlagAt args i = true)
    (fuel : Nat) (c g : List String) :
    rewriteLoop os args (fuel + 1) i c g =
      if pairFails os args i = true then .exit 1
      else rewriteLoop os args fuel (i + 1 + 1) c (g ++ pairCommands os args i) := by
  obtain ⟨h0, hf, v, m, hv, hm⟩ := isFlagAt_true args i h
  have hlen : i + 1 < args.length := (List.getElem?_eq_some_iff.1 hv).1
  rw [loop_match os args fuel i c g "--cmd" v m hf ⟨h0, rfl, by omega⟩ hv hm]
  rcases translate_ok_or_exit os i m with ⟨cmds, hc⟩ | hx
  · have h1 := hc []
    rw [List.nil_append] at h1
    simp [pairFails, pairCommands, hv, hm, hc g, h1]
  · simp [pairFails, hv, hm, hx g, hx []]

theorem loop_at_nonflag (os : OS) (args : List String) (i : Nat) (a : String)
    (ha : args[i]? = some a) (h : isFlagAt args i = false) (fuel : Nat) (c g : List String) :
    rewriteLoop os args (fuel + 1) i c g = rewriteLoop os args fuel (i + 1) (c ++ [a]) g := by
  have hi : i < args.length := (List.getElem?_eq_some_iff.1 ha).1
  by_cases hflag : 0 < i ∧ a = "--cmd" ∧ i < args.length - 1
  · have hi1 : i + 1 < args.length := by omega
    have hb : args[i + 1]? = some args[i + 1] := List.getElem?_eq_getElem hi1
    cases hm : datasetRx.FindStringSubmatch args[i + 1] with
    | none => exact loop_nomatch os args fuel i c g a _ ha hflag hb hm
    | some m =>
      exfalso
      have : isFlagAt args i = true := by
        simp [isFlagAt, hflag.1, ha, hflag.2.1, hb, hm]
      rw [h] at this
      cases this
  · exact loop_copy os args fuel i c g a ha hflag

/-- The loop from a pair boundary, in closed form: it ends the process with
status 1 when a translated pair ahead fails to decode, and otherwise returns
the arguments ahead without the translated pairs and the commands of the
translated pairs ahead, in order. -/
theorem loop_closed_form (os : OS) (args : List String) :
    ∀ (fuel n i : Nat) (c g : List String), n < fuel → i + n = args.length →
      isFlagAt args (i - 1) = false →
      rewriteLoop os args fuel i c g =
        if ((List.range' i n).filter (isFlagAt args)).any (pairFails os args) = true then
          .exit 1
        else
          .ok (c ++ (List.range' i n).filterMap (fun k =>
                if isFlagAt args k || isFlagAt args (k - 1) then none else args[k]?),
            g ++ ((List.range' i n).filter (isFlagAt args)).flatMap (pairCommands os args)) := by
  intro fuel
  induction fuel with
  | zero => intro n i c g hf; omega
  | succ fuel ih =>
    intro n i c g hf hin hb
    cases n with
    | zero =>
      rw [loop_done os args fuel i c g (by omega)]
      simp
    | succ n =>
      have hi : i < args.length := by omega
      have ha : args[i]? = some args[i] := List.getElem?_eq_getElem hi
      cases hfl : isFlagAt args i with
      | false =>
        have e1 : (i :: List.range' (i + 1) n).filter (isFlagAt args) =
            (List.range' (i + 1) n).filter (isFlagAt args) := by simp [hfl]
        rw [loop_at_nonflag os args i _ ha hfl, ih n (i + 1) _ _ (by omega) (by omega)
          (by simpa using hfl), List.range'_succ, e1]
        simp [hfl, hb, ha]
      | true =>
        obtain ⟨_, _, v, m, hv, _⟩ := isFlagAt_true args i hfl
        have hlen : i + 1 < args.length := (List.getElem?_eq_some_iff.1 hv).1
        obtain ⟨n', rfl⟩ : ∃ n', n = n' + 1 := ⟨n - 1, by omega⟩
        have hnext := isFlagAt_succ_false args i hfl
        have e1 : (i :: (i + 1) :: List.range' (i + 1 + 1) n').filter (isFlagAt args) =
            i :: (List.range' (i + 1 + 1) n').filter (isFlagAt args) := by simp [hfl, hnext]
        rw [loop_at_flag os args i hfl, List.range'_succ, List.range'_succ, e1]
        by_cases hpf : pairFails os args i = true
        · simp [hpf]
        · have hpf' : pairFails os args i = false := by simpa using hpf
          rw [if_neg hpf, ih n' (i + 1 + 1) _ _ (by omega) (by omega) (by simpa using hnext),
            List.any_cons, hpf', Bool.false_or]
          simp [hfl, hnext, List.append_assoc]

/-- The argument loop in closed form. -/
theorem rewrite_closed_form (os : OS) (args : List String) :
    rewrite os args =
      if (translatedPairs args).any (pairFails os args) = true then .exit 1
      else .ok (withoutPairs args, (translatedPairs args).flatMap (pairCommands os args)) := by
  have h := loop_closed_form os args (args.length + 1) args.length 0 [] [] (by omega)
    (by omega) (by simp [isFlagAt])
  simpa [rewrite, translatedPairs, withoutPairs, List.range_eq_range'] using h

/-! ## The vector without the translated pairs -/

theorem filterMap_range'_sublist (args : List String) (b : Nat → Bool) :
    ∀ (n i : Nat), i + n = args.length →
      ((List.range' i n).filterMap fun k => if b k = true then none else args[k]?).Sublist
        (args.drop i) := by
  intro n
  induction n with
  | zero => intro i _; simp
  | succ n ih =>
    intro i hin
    have hi : i < args.length := by omega
    rw [List.range'_succ, List.drop_eq_getElem_cons hi]
    have hrec := ih (i + 1) (by omega)
    cases hb : b i with
    | true =>
      simp only [List.filterMap_cons, hb, if_true]
      exact List.Sublist.cons _ hrec
    | false =>
      simp only [List.filterMap_cons, hb, Bool.false_eq_true, if_false,
        List.getElem?_eq_getElem hi]
      exact List.Sublist.cons₂ _ hrec

theorem withoutPairs_sublist (args : List String) : (withoutPairs args).Sublist args := by
  have h := filterMap_range'_sublist args
    (fun k => isFlagAt args k || isFlagAt args (k - 1)) args.length 0 (by omega)
  simpa [withoutPairs, List.range_eq_range'] using h

theorem kept_length (args : List String) :
    ∀ (m n i : Nat), n ≤ m → i + n = args.length → isFlagAt args (i - 1) = false →
      ((List.range' i n).filterMap fun k =>
          if isFlagAt args k || isFlagAt args (k - 1) then none else args[k]?).length +
        2 * ((List.range' i n).filter (isFlagAt args)).length = n := by
  intro m
  induction m with
  | zero =>
    intro n i hn _ _
    have : n = 0 := by omega
    subst this
    simp
  | succ m ih =>
    intro n i hn hin hb
    cases n with
    | zero => simp
    | succ n =>
      have hi : i < args.length := by omega
      cases hfl : isFlagAt args i with
      | false =>
        have hrec := ih n (i + 1) (by omega) (by omega) (by simpa using hfl)
        rw [List.range'_succ]
        simp only [List.filterMap_cons, hfl, hb, Bool.or_self, Bool.false_eq_true, if_false,
          List.getElem?_eq_getElem hi, List.length_cons, List.filter_cons_of_neg,
          not_false_eq_true]
        omega
      | true =>
        obtain ⟨_, _, v, _, hv, _⟩ := isFlagAt_true args i hfl
        have hlen : i + 1 < args.length := (List.getElem?_eq_some_iff.1 hv).1
        obtain ⟨n', rfl⟩ : ∃ n', n = n' + 1 := ⟨n - 1, by omega⟩
        have hnext := isFlagAt_succ_false args i hfl
        have hrec := ih n' (i + 1 + 1) (by omega) (by omega) (by simpa using hnext)
        rw [List.range'_succ, List.range'_succ]
        simp only [List.filterMap_cons, hfl, hnext, Bool.true_or, Bool.or_true, if_true,
          Nat.add_sub_cancel, List.filter_cons_of_pos, List.filter_cons_of_neg,
          Bool.false_eq_true, not_false_eq_true, List.length_cons]
        omega

theorem withoutPairs_length (args : List String) :
    args.length = (withoutPairs args).length + 2 * (translatedPairs args).length := by
  have h := kept_length args args.length args.length 0 (Nat.le_refl _) (by omega)
    (by simp [isFlagAt])
  simp only [withoutPairs, translatedPairs, List.range_eq_range']
  omega

/-! ## A trailing flag -/

theorem bind_find_append_cmd (pre : List String) (j : Nat) :
    ((pre ++ ["--cmd"])[j]?).bind datasetRx.FindStringSubmatch =
      (pre[j]?).bind datasetRx.FindStringSubmatch := by
  rcases Nat.lt_trichotomy j pre.length with h | h | h
  · rw [List.getElem?_append_left h]
  · subst h
    simp [findStringSubmatch_cmd]
  · rw [List.getElem?_eq_none (by simp; omega), List.getElem?_eq_none (by omega)]

theorem isFlagAt_append_cmd (pre : List String) (k : Nat) :
    isFlagAt (pre ++ ["--cmd"]) k = isFlagAt pre k := by
  unfold isFlagAt
  rw [bind_find_append_cmd]
  by_cases h : k < pre.length
  · rw [List.getElem?_append_left h]
  · have h1 : pre[k + 1]? = none := List.getElem?_eq_none (by omega)
    simp [h1]

theorem pairFails_append_cmd (os : OS) (pre : List String) (k : Nat) :
    pairFails os (pre ++ ["--cmd"]) k = pairFails os pre k := by
  unfold pairFails
  rw [bind_find_append_cmd]

theorem pairCommands_append_cmd (os : OS) (pre : List String) (k : Nat) :
    pairCommands os (pre ++ ["--cmd"]) k = pairCommands os pre k := by
  unfold pairCommands
  rw [bind_find_append_cmd]

theorem isFlagAt_of_le (args : List String) (k : Nat) (h : args.length ≤ k + 1) :
    isFlagAt args k = false := by
  have h1 : args[k + 1]? = none := List.getElem?_eq_none (by omega)
  simp [isFlagAt, h1]

theorem translatedPairs_append_cmd (pre : List String) :
    translatedPairs (pre ++ ["--cmd"]) = translatedPairs pre := by
  have hf : isFlagAt (pre ++ ["--cmd"]) = isFlagAt pre := funext (isFlagAt_append_cmd pre)
  unfold translatedPairs
  rw [hf, List.length_append, List.length_singleton, List.range_succ, List.filter_append]
  simp [isFlagAt_of_le pre pre.length (by omega)]

theorem withoutPairs_append_cmd (pre : List String) :
    withoutPairs (pre ++ ["--cmd"]) = withoutPairs pre ++ ["--cmd"] := by
  have hf : isFlagAt (pre ++ ["--cmd"]) = isFlagAt pre := funext (isFlagAt_append_cmd pre)
  unfold withoutPairs
  rw [hf, List.length_append, List.length_singleton, List.range_succ, List.filterMap_append]
  congr 1
  · apply List.filterMap_congr
    intro k hk
    rw [List.getElem?_append_left (List.mem_range.1 hk)]
  · have h1 := isFlagAt_of_le pre pre.length (by omega)
    have h2 : isFlagAt pre (pre.length - 1) = false := by
      cases hl : pre.length with
      | zero => simp [isFlagAt]
      | succ n => exact isFlagAt_of_le pre _ (by omega)
    simp [h1, h2]

theorem rewrite_append_cmd (os : OS) (pre : List String) :
    rewrite os (pre ++ ["--cmd"]) =
      match rewrite os pre with
      | .ok (c, g) => .ok (c ++ ["--cmd"], g)
      | .exit code => .exit code
      | .panic => .panic
      | .outOfFuel => .outOfFuel := by
  have hp : pairFails os (pre ++ ["--cmd"]) = pairFails os pre :=
    funext (pairFails_append_cmd os pre)
  have hc : pairCommands os (pre ++ ["--cmd"]) = pairCommands os pre :=
    funext (pairCommands_append_cmd os pre)
  rw [rewrite_closed_form os (pre ++ ["--cmd"]), rewrite_closed_form os pre,
    translatedPairs_append_cmd, withoutPairs_append_cmd, hp, hc]
  split <;> rfl

/-! ## A single pair -/

theorem filterMap_getElem?_range' (args : List String) :
    ∀ (n i : Nat), i + n ≤ args.length →
      (List.range' i n).filterMap (fun k => args[k]?) = (args.drop i).take n := by
  intro n
  induction n with
  | zero => intro i _; simp
  | succ n ih =>
    intro i hin
    have hi : i < args.length := by omega
    rw [List.range'_succ, List.drop_eq_getElem_cons hi, List.take_succ_cons,
      ← ih (i + 1) (by omega)]
    simp [List.getElem?_eq_getElem hi]

theorem range'_split (s m n : Nat) :
    List.range' s (m + n) = List.range' s m ++ List.range' (s + m) n := by
  have := List.range'_append s m n 1
  simp only [Nat.one_mul] at this
  rw [this, Nat.add_comm]

theorem withoutPairs_single (args : List String) (j : Nat) (hj : isFlagAt args j = true)
    (honly : ∀ k, k ≠ j → isFlagAt args k = false) :
    withoutPairs args = args.take j ++ args.drop (j + 1 + 1) := by
  obtain ⟨h0, _, v, _, hv, _⟩ := isFlagAt_true args j hj
  have hlen : j + 1 < args.length := (List.getElem?_eq_some_iff.1 hv).1
  have hl : args.length = j + (2 + (args.length - (j + 2))) := by omega
  have hsplit : List.range args.length =
      List.range' 0 j ++ (List.range' j 2 ++ List.range' (j + 2) (args.length - (j + 2))) := by
    rw [List.range_eq_range']
    conv_lhs => rw [hl]
    rw [range'_split, range'_split, Nat.zero_add]
  unfold withoutPairs
  rw [hsplit, List.filterMap_append, List.filterMap_append]
  have p1 : (List.range' 0 j).filterMap (fun k =>
      if isFlagAt args k || isFlagAt args (k - 1) then none else args[k]?) = args.take j := by
    have := filterMap_getElem?_range' args j 0 (by omega)
    rw [List.drop_zero] at this
    rw [← this]
    apply List.filterMap_congr
    intro k hk
    have hk' : k < j := by simpa using hk
    rw [honly k (by omega), honly (k - 1) (by omega)]
    simp
  have p2 : (List.range' j 2).filterMap (fun k =>
      if isFlagAt args k || isFlagAt args (k - 1) then none else args[k]?) = [] := by
    simp [List.range', hj]
  have p3 : (List.range' (j + 2) (args.length - (j + 2))).filterMap (fun k =>
      if isFlagAt args k || isFlagAt args (k - 1) then none else args[k]?) =
        args.drop (j + 1 + 1) := by
    have := filterMap_getElem?_range' args (args.length - (j + 2)) (j + 2) (by omega)
    rw [List.take_of_length_le (by simp)] at this
    rw [← this]
    apply List.filterMap_congr
    intro k hk
    have hk' : j + 2 ≤ k := (List.mem_range'_1.1 hk).1
    rw [honly k (by omega), honly (k - 1) (by omega)]
    simp
  rw [p1, p2, p3, List.nil_append]

theorem rewrite_ok_or_exit (os : OS) (args : List String) :
    (∃ r, rewrite os args = .ok r) ∨ rewrite os args = .exit 1 :=
  loop_total os args (args.length + 1) 0 [] [] (by omega)

theorem mem_translatedPairs (args : List String) (i : Nat) :
    i ∈ translatedPairs args ↔ isFlagAt args i = true := by
  simp only [translatedPairs, List.mem_filter, List.mem_range, and_iff_right_iff_imp]
  intro h
  obtain ⟨_, _, v, _, hv, _⟩ := isFlagAt_true args i h
  have := (List.getElem?_eq_some_iff.1 hv).1
  omega

/-- C11: for a non-empty argument vector the loop ends the run with status 1
or returns a `commonArgs` whose first element is `args[0]`; index 0 is not read
as the flag.  When the vector starts with `--cmd` and a value that matches the
dataset pattern, the loop stands at index 2 with both copied to `commonArgs`
and nothing generated, neither index is a translated pair, and the vector of
these two alone is passed through whole. -/
theorem index_zero_is_never_a_flag (os : OS) (a : String) (rest : List String) :
    (rewrite os (a :: rest) = .exit 1 ∨ ∃ c g, rewrite os (a :: rest) = .ok (a :: c, g)) ∧
      (isFlagAt (a :: rest) 0 = false) ∧
      (∀ (v : String) (tail : List String),
        (datasetRx.FindStringSubmatch v).isSome = true →
        rewrite os ("--cmd" :: v :: tail) =
            rewriteLoop os ("--cmd" :: v :: tail) (tail.length + 1) 2 ["--cmd", v] [] ∧
          (rewrite os ("--cmd" :: v :: tail) = .exit 1 ∨
            ∃ c g, rewrite os ("--cmd" :: v :: tail) = .ok ("--cmd" :: v :: c, g)) ∧
          0 ∉ translatedPairs ("--cmd" :: v :: tail) ∧
          1 ∉ translatedPairs ("--cmd" :: v :: tail) ∧
          rewrite os ["--cmd", v] = .ok (["--cmd", v], [])) := by
  refine ⟨?_, by simp [isFlagAt], ?_⟩
  · rcases rewrite_ok_or_exit os (a :: rest) with ⟨⟨c, g⟩, hr⟩ | hx
    · obtain ⟨c2, rfl⟩ := rewrite_cons os a rest c g hr
      exact Or.inr ⟨c2, g, hr⟩
    · exact Or.inl hx
  · intro v tail hv
    have hne : v ≠ "--cmd" := by
      rintro rfl
      rw [findStringSubmatch_cmd] at hv
      cases hv
    have hstep : ∀ tl : List String, rewrite os ("--cmd" :: v :: tl) =
        rewriteLoop os ("--cmd" :: v :: tl) (tl.length + 1) 2 ["--cmd", v] [] := by
      intro tl
      show rewriteLoop os ("--cmd" :: v :: tl) (tl.length + 1 + 1 + 1) 0 [] [] = _
      rw [loop_copy os _ _ 0 [] [] "--cmd" (by simp)
          (fun hh => absurd hh.1 (Nat.lt_irrefl 0)),
        loop_copy os _ _ 1 _ [] v (by simp) (fun hh => hne hh.2.1)]
      rfl
    have h0 : isFlagAt ("--cmd" :: v :: tail) 0 = false := by simp [isFlagAt]
    have h1 : isFlagAt ("--cmd" :: v :: tail) 1 = false := by simp [isFlagAt, hne]
    refine ⟨hstep tail, ?_, ?_, ?_, ?_⟩
    · rcases rewrite_ok_or_exit os ("--cmd" :: v :: tail) with ⟨⟨c, g⟩, hr⟩ | hx
      · right
        have hr' := hr
        rw [hstep tail] at hr'
        obtain ⟨c2, g2, hc, _, _⟩ := loop_ok_shape os _ _ _ _ _ _ _ hr'
        exact ⟨c2, g, by rw [hr, hc]; rfl⟩
      · exact Or.inl hx
    · rw [mem_translatedPairs, h0]; simp
    · rw [mem_translatedPairs, h1]; simp
    · rw [hstep []]
      simp [rewriteLoop]

theorem keyword_cases (c : Char) (hc : c = 'g' ∨ c = 's') :
    (⟨"datasets-".data ++ [c] ++ "et-entry".data⟩ : String) = "datasets-get-entry" ∨
      (⟨"datasets-".data ++ [c] ++ "et-entry".data⟩ : String) = "datasets-set-entry" := by
  rcases hc with rfl | rfl
  · exact Or.inl (by decide)
  · exact Or.inr (by decide)

theorem keyword_data (kw : String)
    (h : kw = "datasets-get-entry" ∨ kw = "datasets-set-entry") :
    ∃ c : Char, (c = 'g' ∨ c = 's') ∧ kw.data = "datasets-".data ++ [c] ++ "et-entry".data := by
  rcases h with rfl | rfl
  · exact ⟨'g', Or.inl rfl, by decide⟩
  · exact ⟨'s', Or.inr rfl, by decide⟩

theorem isDot_iff (c : Char) : isDot c = true ↔ c ≠ '\n' := by
  simp [isDot]

/-- What a successful `FindStringSubmatch` says about its subject. -/
theorem findStringSubmatch_some (v : String) (m : String × String)
    (h : datasetRx.FindStringSubmatch v = some m) :
    (m.1 = "datasets-get-entry" ∨ m.1 = "datasets-set-entry") ∧ m.2 ≠ "" ∧
      (∀ c ∈ m.2.data, c ≠ '\n') ∧
      ∃ w1 w2 w3 : String, v = w1 ++ m.1 ++ w2 ++ m.2 ++ w3 ∧
        (∀ c ∈ w1.data, isSpace c = true) ∧ w2 ≠ "" ∧ (∀ c ∈ w2.data, isSpace c = true) ∧
        (∀ c ∈ w3.data, isSpace c = true) := by
  unfold datasetRx.FindStringSubmatch at h
  obtain ⟨⟨m1, m2⟩, hm, hmm⟩ := Option.map_eq_some'.1 h
  obtain ⟨w1, c, w2, w3, hc, h1, hs, hw1, hne2, hw2, hner, hr, hw3⟩ :=
    datasetRxMatch_some v.data m1 m2 hm
  subst hmm
  refine ⟨?_, ?_, ?_, ⟨w1⟩, ⟨w2⟩, ⟨w3⟩, ?_, hw1, ?_, hw2, hw3⟩
  · simp only [h1]
    exact keyword_cases c hc
  · intro e
    exact hner (congrArg String.data e)
  · intro d hd
    exact (isDot_iff d).1 (hr d hd)
  · apply String.ext
    simp [hs]
  · intro e
    exact hne2 (congrArg String.data e)

/-- C12, as stated, fails: a value with the keyword, one blank and a JSON text
spread over three lines has the shape of the claim, and is not recognised. -/
theorem multi_line_json_is_not_recognised :
    (∃ w1 kw w2 r w3 : String, multiLineValue = w1 ++ kw ++ w2 ++ r ++ w3 ∧
        (∀ c ∈ w1.data, isSpace c = true) ∧
        (kw = "datasets-get-entry" ∨ kw = "datasets-set-entry") ∧
        w2 ≠ "" ∧ (∀ c ∈ w2.data, isSpace c = true) ∧ r ≠ "" ∧
        (∀ c ∈ w3.data, isSpace c = true)) ∧
      datasetRx.FindStringSubmatch multiLineValue = none ∧
      rewrite sampleOS ["prog", "--cmd", multiLineValue] =
        .ok (["prog", "--cmd", multiLineValue], []) := by
  refine ⟨⟨"", "datasets-get-entry", " ", "\x7b\n\"keys\":[\"k\"]\n\x7d", "", by decide,
    by decide, Or.inl rfl, by decide, by decide, by decide, by decide⟩, by decide, by decide⟩

/-- C12, amended: a flag value is recognised as a dataset command if and only
if it is `w1 ++ kw ++ w2 ++ r ++ w3` with `w1`, `w3` runs of whitespace
(possibly empty), `kw` one of the two keywords, `w2` a non-empty run of
whitespace and `r` non-empty without a line feed, so that JSON text spread over
several lines is not recognised.  The submatches of a recognised value are its
keyword and such a remainder; and at an index after 0 that holds `--cmd`, a
recognised value makes the loop hand the pair to the switch of `main`, which
decodes the remainder, and step over both. -/
theorem dataset_pattern_language (v : String) :
    ((datasetRx.FindStringSubmatch v).isSome = true ↔
        ∃ w1 kw w2 r w3 : String, v = w1 ++ kw ++ w2 ++ r ++ w3 ∧
          (∀ c ∈ w1.data, isSpace c = true) ∧
          (kw = "datasets-get-entry" ∨ kw = "datasets-set-entry") ∧
          w2 ≠ "" ∧ (∀ c ∈ w2.data, isSpace c = true) ∧
          r ≠ "" ∧ (∀ c ∈ r.data, c ≠ '\n') ∧
          (∀ c ∈ w3.data, isSpace c = true)) ∧
      (∀ m, datasetRx.FindStringSubmatch v = some m →
        (m.1 = "datasets-get-entry" ∨ m.1 = "datasets-set-entry") ∧ m.2 ≠ "" ∧
          (∀ c ∈ m.2.data, c ≠ '\n') ∧
          ∃ w1 w2 w3 : String, v = w1 ++ m.1 ++ w2 ++ m.2 ++ w3 ∧
            (∀ c ∈ w1.data, isSpace c = true) ∧ w2 ≠ "" ∧
            (∀ c ∈ w2.data, isSpace c = true) ∧ (∀ c ∈ w3.data, isSpace c = true)) ∧
      (∀ (os : OS) (args : List String) (i fuel : Nat) (c g : List String),
        0 < i → args[i]? = some "--cmd" → args[i + 1]? = some v →
        (datasetRx.FindStringSubmatch v).isSome = true →
        ∃ m, datasetRx.FindStringSubmatch v = some m ∧
          rewriteLoop os args (fuel + 1) i c g =
            match translate os i m g with
            | .ok g' => rewriteLoop os args fuel (i + 1 + 1) c g'
            | .exit code => .exit code
            | .panic => .panic
            | .outOfFuel => .outOfFuel) := by
  refine ⟨⟨fun h => ?_, ?_⟩, findStringSubmatch_some v, ?_⟩
  · obtain ⟨m, hm⟩ := Option.isSome_iff_exists.1 h
    obtain ⟨hk, hne, hnl, w1, w2, w3, hv, hw1, hne2, hw2, hw3⟩ :=
      findStringSubmatch_some v m hm
    exact ⟨w1, m.1, w2, m.2, w3, hv, hw1, hk, hne2, hw2, hne, hnl, hw3⟩
  · rintro ⟨w1, kw, w2, r, w3, hv, hw1, hk, hne2, hw2, hner, hr, hw3⟩
    obtain ⟨c, hc, hkw⟩ := keyword_data kw hk
    have hd : v.data =
        w1.data ++ ("datasets-".data ++ [c] ++ "et-entry".data) ++ w2.data ++ r.data ++
          w3.data := by
      rw [hv, ← hkw]
      simp [String.data_append]
    unfold datasetRx.FindStringSubmatch
    rw [Option.isSome_map', hd]
    refine datasetRxMatch_isSome _ _ _ _ c hc hw1 ?_ hw2 ?_ ?_ hw3
    · intro e
      exact hne2 (String.ext e)
    · intro e
      exact hner (String.ext e)
    · intro d hd'
      exact (isDot_iff d).2 (hr d hd')
  · intro os args i fuel c g hi hf hv hsome
    obtain ⟨m, hm⟩ := Option.isSome_iff_exists.1 hsome
    have hlen : i + 1 < args.length := (List.getElem?_eq_some_iff.1 hv).1
    exact ⟨m, hm, loop_match os args fuel i c g "--cmd" v m hf ⟨hi, rfl, by omega⟩ hv hm⟩

theorem dataset_pattern_language_witness :
    (datasetRx.FindStringSubmatch "\t datasets-set-entry \n \x7b\x7d \r\n").isSome = true :=
  (dataset_pattern_language "\t datasets-set-entry \n \x7b\x7d \r\n").1.2
    ⟨"\t ", "datasets-set-entry", " \n ", "\x7b\x7d", " \r\n", by decide, by decide,
      Or.inr rfl, by decide, by decide, by decide, by decide, by decide⟩

/-- C13: the translated pairs are the indices after 0 that hold `--cmd` and are
followed by a matching value; the loop ends the run with status 1 (a pair that
does not decode) or returns as `commonArgs` the vector without the flag and the
value of every translated pair: a subsequence of `args` in which an argument
stays exactly when it is neither the flag nor the value of a translated pair,
so that `len(args) = len(commonArgs) + 2 * (number of translated pairs)`.  The
run ends with status 1 exactly when one of these pairs does not decode, and
otherwise the generated commands are those of the pairs in argument order. -/
theorem common_args_are_args_without_pairs (os : OS) (args : List String) :
    (rewrite os args = .exit 1 ∨ ∃ g, rewrite os args = .ok (withoutPairs args, g)) ∧
      (withoutPairs args).Sublist args ∧
      args.length = (withoutPairs args).length + 2 * (translatedPairs args).length ∧
      (∀ i, i ∈ translatedPairs args ↔
        0 < i ∧ args[i]? = some "--cmd" ∧
          ((args[i + 1]?).bind datasetRx.FindStringSubmatch).isSome = true) ∧
      withoutPairs args = (List.range args.length).filterMap (fun k =>
        if k ∈ translatedPairs args ∨ k - 1 ∈ translatedPairs args then none else args[k]?) ∧
      rewrite os args =
        (if (translatedPairs args).any (pairFails os args) = true then .exit 1
        else .ok (withoutPairs args, (translatedPairs args).flatMap (pairCommands os args))) := by
  refine ⟨?_, withoutPairs_sublist args, withoutPairs_length args, fun i => ?_, ?_,
    rewrite_closed_form os args⟩
  · rw [rewrite_closed_form]
    split
    · exact Or.inl rfl
    · exact Or.inr ⟨_, rfl⟩
  · rw [mem_translatedPairs]
    simp [isFlagAt, and_assoc]
  · unfold withoutPairs
    apply List.filterMap_congr
    intro k _
    simp only [mem_translatedPairs, Bool.or_eq_true]

theorem rewrite_singleton (os : OS) (a : String) : rewrite os [a] = .ok ([a], []) := by
  simp [rewrite, rewriteLoop]

/-- C14: on every argument vector the loop ends, within one turn per argument,
by returning its two lists or by ending the run with status 1 on a pair that
does not decode: it never reads outside the vector (no panic) and never runs
out of fuel, and more fuel changes nothing.  The empty vector and a
one-element vector are returned as they are, and a `--cmd` that is the last
token is copied to `commonArgs` and generates nothing: the result is that of
the vector before it, with `--cmd` added to `commonArgs`. -/
theorem loop_terminates_in_bounds (os : OS) (args : List String) :
    ((∃ r, rewrite os args = .ok r) ∨ rewrite os args = .exit 1) ∧
      (∀ fuel, args.length < fuel → rewriteLoop os args fuel 0 [] [] = rewrite os args) ∧
      rewrite os [] = .ok ([], []) ∧
      (∀ a, rewrite os [a] = .ok ([a], [])) ∧
      rewrite os (args ++ ["--cmd"]) =
        (match rewrite os args with
        | .ok (c, g) => .ok (c ++ ["--cmd"], g)
        | .exit code => .exit code
        | .panic => .panic
        | .outOfFuel => .outOfFuel) := by
  refine ⟨rewrite_ok_or_exit os args, fun fuel hf => ?_, rewrite_nil os,
    rewrite_singleton os, rewrite_append_cmd os args⟩
  unfold rewrite
  rw [loop_closed_form os args fuel args.length 0 [] [] hf (by omega) (by simp [isFlagAt]),
    loop_closed_form os args (args.length + 1) args.length 0 [] [] (by omega) (by omega)
      (by simp [isFlagAt])]

theorem translate_empty (os : OS) (j : Nat) (m : String × String)
    (hempty : (m.1 = "datasets-get-entry" ∧
        ∃ p, os.unmarshalGet m.2 = some p ∧ p.Keys = []) ∨
      (m.1 = "datasets-set-entry" ∧
        ∃ p, os.unmarshalSet m.2 = some p ∧ p.Entries = [])) :
    translate os j m [] = .ok [] := by
  unfold translate
  rcases hempty with ⟨h1, p, hp, hk⟩ | ⟨h1, p, hp, hk⟩
  · simp [h1, hp, appendInfoGet_eq, hk]
  · have hne : ¬ m.1 = "datasets-get-entry" := by rw [h1]; decide
    have hkvp : getGuestInfoKeyValuePairsForDatasetSetPayload p = [] := by
      simp [getGuestInfoKeyValuePairsForDatasetSetPayload, hk]
    have hperm := os.mapRange_perm j []
    have hnil : os.mapRange j [] = [] := List.Perm.eq_nil hperm
    simp [hne, h1, hp, appendInfoSet, hkvp, hnil]

/-- C15: when the only matching `--cmd` pair of a vector decodes to a get
payload without keys or a set payload without entries, nothing is generated,
`commonArgs` is the vector without the flag and its value, and the run is the
single call `execAndExit(vmtoolsd, commonArgs...)`: the daemon is started once
with the remaining arguments and no `--cmd` is added. -/
theorem empty_payload_drops_the_pair (os : OS) (args : List String) (vmtoolsd : String)
    (j : Nat) (v : String) (m : String × String)
    (hp : getPathToRealVmtoolsd os = some vmtoolsd) (hs : os.stat vmtoolsd = true)
    (hj : 0 < j) (hf : args[j]? = some "--cmd") (hv : args[j + 1]? = some v)
    (hm : datasetRx.FindStringSubmatch v = some m)
    (honly : ∀ k < args.length, k ≠ j → isFlagAt args k = false)
    (hempty : (m.1 = "datasets-get-entry" ∧
        ∃ p, os.unmarshalGet m.2 = some p ∧ p.Keys = []) ∨
      (m.1 = "datasets-set-entry" ∧
        ∃ p, os.unmarshalSet m.2 = some p ∧ p.Entries = [])) :
    rewrite os args = .ok (args.take j ++ args.drop (j + 2), []) ∧
      main os args = execAndExit os vmtoolsd (args.take j ++ args.drop (j + 2)) ∧
      (os.goos ≠ "windows" →
        (main os args).calls = [Call.exec vmtoolsd (args.take j ++ args.drop (j + 2))]) ∧
      (os.goos = "windows" →
        (main os args).calls =
          [Call.run vmtoolsd (args.take j ++ args.drop (j + 2)).tail]) := by
  have hlen : j + 1 < args.length := (List.getElem?_eq_some_iff.1 hv).1
  have hflag : isFlagAt args j = true := by simp [isFlagAt, hj, hf, hv, hm]
  have honly' : ∀ k, k ≠ j → isFlagAt args k = false := by
    intro k hk
    by_cases hkl : k < args.length
    · exact honly k hkl hk
    · exact isFlagAt_of_le args k (by omega)
  have htr := translate_empty os j m hempty
  have hpf : pairFails os args j = false := by simp [pairFails, hv, hm, htr]
  have hpc : pairCommands os args j = [] := by simp [pairCommands, hv, hm, htr]
  have hall : ∀ i ∈ translatedPairs args, i = j := by
    intro i hi
    by_contra hne
    have := honly' i hne
    rw [(mem_translatedPairs args i).1 hi] at this
    cases this
  have hr : rewrite os args = .ok (args.take j ++ args.drop (j + 2), []) := by
    rw [rewrite_closed_form]
    have h1 : (translatedPairs args).any (pairFails os args) = false := by
      rw [List.any_eq_false]
      intro i hi
      rw [hall i hi, hpf]
      simp
    have h2 : (translatedPairs args).flatMap (pairCommands os args) = [] := by
      rw [List.flatMap_eq_nil_iff]
      intro i hi
      rw [hall i hi, hpc]
    rw [h1, h2, withoutPairs_single args j hflag honly']
    simp
  have hmain : main os args = execAndExit os vmtoolsd (args.take j ++ args.drop (j + 2)) := by
    rw [main_eq_dispatch os args vmtoolsd _ _ hp hs hr]
    rfl
  refine ⟨hr, hmain, fun hw => ?_, fun hw => ?_⟩
  · rw [hmain, execAndExit_calls_exec os vmtoolsd _ hw]
  · rw [hmain]
    have hne : args.take j ++ args.drop (j + 2) ≠ [] := by
      intro e
      have := congrArg List.length e
      simp only [List.length_append, List.length_take, List.length_drop, List.length_nil] at this
      omega
    obtain ⟨a, rest, e⟩ := List.exists_cons_of_ne_nil hne
    rw [e, execAndExit_calls_run os vmtoolsd a rest hw]
    rfl

theorem empty_payload_drops_the_pair_witness :
    rewrite emptyKeysOS emptyKeysArgs = .ok (["prog", "-v", "--last"], []) ∧
      (main emptyKeysOS emptyKeysArgs).calls =
        [Call.exec "/usr/bin/vmtoolsd.bin" (emptyKeysArgs.take 2 ++ emptyKeysArgs.drop (2 + 2))] :=
  ⟨by decide,
    (empty_payload_drops_the_pair emptyKeysOS emptyKeysArgs "/usr/bin/vmtoolsd.bin" 2
      "datasets-get-entry \x7b\"dataset\":\"x\",\"keys\":[]\x7d"
      ("datasets-get-entry", "\x7b\"dataset\":\"x\",\"keys\":[]\x7d")
      (by decide) (by decide) (by decide) (by decide) (by decide) (by decide) (by decide)
      (Or.inl ⟨rfl, ⟨"x", []⟩, by decide, rfl⟩)).2.2.1 (by decide)⟩

/-! ## Two runs on one argument vector -/

theorem appendInfoSet_perm (os1 os2 : OS) (i : Nat) (p : datasetSetPayload) :
    (appendInfoSet os1 i [] p).Perm (appendInfoSet os2 i [] p) := by
  simp only [appendInfoSet, foldl_snoc_eq_append_map, List.nil_append]
  exact ((os1.mapRange_perm i _).trans (os2.mapRange_perm i _).symm).map _

/-- With the same decoder, the switch of `main` fails in both environments or
yields commands that differ by a permutation at most, and the same commands
for the keyword `datasets-get-entry`. -/
theorem translate_two_runs (os1 os2 : OS) (hG : os1.unmarshalGet = os2.unmarshalGet)
    (hS : os1.unmarshalSet = os2.unmarshalSet) (i : Nat) (m : String × String) :
    (translate os1 i m [] = .exit 1 ∧ translate os2 i m [] = .exit 1) ∨
      ∃ c1 c2, translate os1 i m [] = .ok c1 ∧ translate os2 i m [] = .ok c2 ∧ c1.Perm c2 ∧
        (m.1 = "datasets-get-entry" → c1 = c2) := by
  unfold translate
  rw [hG, hS]
  by_cases h1 : m.1 = "datasets-get-entry"
  · simp only [if_pos h1]
    cases os2.unmarshalGet m.2 with
    | none => exact Or.inl ⟨rfl, rfl⟩
    | some p => exact Or.inr ⟨_, _, rfl, rfl, List.Perm.refl _, fun _ => rfl⟩
  · simp only [if_neg h1]
    by_cases h2 : m.1 = "datasets-set-entry"
    · simp only [if_pos h2]
      cases os2.unmarshalSet m.2 with
      | none => exact Or.inl ⟨rfl, rfl⟩
      | some p =>
        exact Or.inr ⟨_, _, rfl, rfl, appendInfoSet_perm os1 os2 i p, fun h => absurd h h1⟩
    · simp only [if_neg h2]
      exact Or.inr ⟨_, _, rfl, rfl, List.Perm.refl _, fun _ => rfl⟩

theorem pairFails_two_runs (os1 os2 : OS) (hG : os1.unmarshalGet = os2.unmarshalGet)
    (hS : os1.unmarshalSet = os2.unmarshalSet) (args : List String) :
    pairFails os1 args = pairFails os2 args := by
  funext i
  unfold pairFails
  cases (args[i + 1]?).bind datasetRx.FindStringSubmatch with
  | none => rfl
  | some m =>
    rcases translate_two_runs os1 os2 hG hS i m with ⟨h1, h2⟩ | ⟨c1, c2, h1, h2, _, _⟩
    · simp [h1, h2]
    · simp [h1, h2]

theorem pairCommands_two_runs (os1 os2 : OS) (hG : os1.unmarshalGet = os2.unmarshalGet)
    (hS : os1.unmarshalSet = os2.unmarshalSet) (args : List String) (i : Nat) :
    (pairCommands os1 args i).Perm (pairCommands os2 args i) := by
  unfold pairCommands
  cases (args[i + 1]?).bind datasetRx.FindStringSubmatch with
  | none => exact List.Perm.refl _
  | some m =>
    rcases translate_two_runs os1 os2 hG hS i m with ⟨h1, h2⟩ | ⟨c1, c2, h1, h2, hperm, _⟩
    · simp [h1, h2]
    · simpa [h1, h2] using hperm

theorem flatMap_perm_pointwise {α β : Type} (f g : α → List β)
    (h : ∀ a, (f a).Perm (g a)) : ∀ l : List α, (l.flatMap f).Perm (l.flatMap g) := by
  intro l
  induction l with
  | nil => exact List.Perm.refl _
  | cons a l ih =>
    simp only [List.flatMap_cons]
    exact (h a).append ih

theorem translate_same_order (os1 os2 : OS) (hG : os1.unmarshalGet = os2.unmarshalGet)
    (hS : os1.unmarshalSet = os2.unmarshalSet) (hM : os1.mapRange = os2.mapRange)
    (i : Nat) (m : String × String) (g : List String) :
    translate os1 i m g = translate os2 i m g := by
  simp only [translate, appendInfoSet, hG, hS, hM]

/-- C16, as stated, fails: two runs on one argument vector with a set payload
of two distinct keys, in environments that differ only in the order in which
the map is visited, generate the two `info-set` commands in opposite orders. -/
theorem info_set_order_is_not_determined :
    sampleOS.unmarshalGet = reverseOS.unmarshalGet ∧
      sampleOS.unmarshalSet = reverseOS.unmarshalSet ∧
      rewrite sampleOS twoEntryArgs =
        .ok (["prog"], ["info-set guestinfo.ds.a 1", "info-set guestinfo.ds.b 2"]) ∧
      rewrite reverseOS twoEntryArgs =
        .ok (["prog"], ["info-set guestinfo.ds.b 2", "info-set guestinfo.ds.a 1"]) ∧
      rewrite sampleOS twoEntryArgs ≠ rewrite reverseOS twoEntryArgs ∧
      (main sampleOS twoEntryArgs).calls ≠ (main reverseOS twoEntryArgs).calls := by
  refine ⟨rfl, rfl, by decide, by decide, by decide, by decide⟩

/-- C16, amended: two runs on the same argument vector with the same decoding
both end with status 1, or yield the same `commonArgs` and generated commands
that agree up to the order of the `info-set` commands of one set payload: both
sequences are made of the blocks of the translated pairs in argument order,
the blocks of a pair are permutations of each other and equal for a get
payload.  When the maps are visited in the same order, the two runs agree. -/
theorem rewrite_determined_up_to_map_order (os1 os2 : OS) (args : List String)
    (hG : os1.unmarshalGet = os2.unmarshalGet) (hS : os1.unmarshalSet = os2.unmarshalSet) :
    ((rewrite os1 args = .exit 1 ∧ rewrite os2 args = .exit 1) ∨
        ∃ c g1 g2, rewrite os1 args = .ok (c, g1) ∧ rewrite os2 args = .ok (c, g2) ∧
          g1.Perm g2 ∧
          g1 = (translatedPairs args).flatMap (pairCommands os1 args) ∧
          g2 = (translatedPairs args).flatMap (pairCommands os2 args)) ∧
      (∀ i, (pairCommands os1 args i).Perm (pairCommands os2 args i)) ∧
      (∀ i v m, args[i + 1]? = some v → datasetRx.FindStringSubmatch v = some m →
        m.1 = "datasets-get-entry" → pairCommands os1 args i = pairCommands os2 args i) ∧
      (os1.mapRange = os2.mapRange → rewrite os1 args = rewrite os2 args) := by
  refine ⟨?_, pairCommands_two_runs os1 os2 hG hS args, ?_, ?_⟩
  · rw [rewrite_closed_form os1, rewrite_closed_form os2, pairFails_two_runs os1 os2 hG hS]
    split
    · exact Or.inl ⟨rfl, rfl⟩
    · exact Or.inr ⟨_, _, _, rfl, rfl,
        flatMap_perm_pointwise _ _ (pairCommands_two_runs os1 os2 hG hS args) _, rfl, rfl⟩
  · intro i v m hv hm hget
    unfold pairCommands
    rw [hv]
    simp only [Option.some_bind, hm]
    rcases translate_two_runs os1 os2 hG hS i m with ⟨h1, h2⟩ | ⟨c1, c2, h1, h2, _, heq⟩
    · simp [h1, h2]
    · simp [h1, h2, heq hget]
  · intro hM
    have hc : pairCommands os1 args = pairCommands os2 args := by
      funext i
      unfold pairCommands
      cases (args[i + 1]?).bind datasetRx.FindStringSubmatch with
      | none => rfl
      | some m => simp only [translate_same_order os1 os2 hG hS hM]
    rw [rewrite_closed_form os1, rewrite_closed_form os2, pairFails_two_runs os1 os2 hG hS, hc]

theorem rewrite_determined_up_to_map_order_witness :
    ∃ c g1 g2, rewrite sampleOS twoEntryArgs = .ok (c, g1) ∧
      rewrite reverseOS twoEntryArgs = .ok (c, g2) ∧ g1.Perm g2 ∧ g1 ≠ g2 := by
  rcases (rewrite_determined_up_to_map_order sampleOS reverseOS twoEntryArgs rfl rfl).1 with
    ⟨h, _⟩ | ⟨c, g1, g2, h1, h2, hperm, _, _⟩
  · exact absurd h (by decide)
  · refine ⟨c, g1, g2, h1, h2, hperm, ?_⟩
    have e1 : rewrite sampleOS twoEntryArgs =
        .ok (["prog"], ["info-set guestinfo.ds.a 1", "info-set guestinfo.ds.b 2"]) := by decide
    have e2 : rewrite reverseOS twoEntryArgs =
        .ok (["prog"], ["info-set guestinfo.ds.b 2", "info-set guestinfo.ds.a 1"]) := by decide
    rw [e1] at h1
    rw [e2] at h2
    cases h1
    cases h2
    decide

/-! ## The two back ends of `execAndExit` -/

/-- C17: for a non-empty argument list `a`, the spawn-and-wait back end of
`execAndExit` (Windows) and the replacement back end make one start of the
daemon each, with the same arguments after `argv[0]`, namely `a[1:]`; the
Windows program exits with the status of its child (0 for 0, `code` for
`code`), which is the status the caller sees after a replacement. -/
theorem backends_agree (osW osU : OS) (name : String) (a : List String) (code : Int)
    (hw : osW.goos = "windows") (hu : osU.goos ≠ "windows") (hne : a ≠ [])
    (hexec : osU.sysExec name a = true)
    (hrun : osW.run 0 name a.tail = childResult code) :
    (execAndExit osW name a).calls.map (fun c => c.argv.tail) = [a.tail] ∧
      (execAndExit osU name a).calls.map (fun c => c.argv.tail) = [a.tail] ∧
      (execAndExit osW name a).status = .exited code ∧
      (execAndExit osU name a).status = .replaced ∧
      (execAndExit osW name a).status.seenByCaller code =
        (execAndExit osU name a).status.seenByCaller code := by
  obtain ⟨x, rest, rfl⟩ := List.exists_cons_of_ne_nil hne
  have hW : execAndExit osW name (x :: rest) = ⟨[Call.run name rest], .exited code⟩ := by
    simp only [List.tail_cons] at hrun
    simp only [execAndExit, if_pos hw, execAndExitOnError, hrun, childResult]
    by_cases hc : code = 0
    · simp [hc]
    · simp [hc]
  have hU : execAndExit osU name (x :: rest) = ⟨[Call.exec name (x :: rest)], .replaced⟩ := by
    simp [execAndExit, hu, hexec]
  rw [hW, hU]
  simp [Call.argv, Status.seenByCaller]

theorem backends_agree_witness :
    (execAndExit windowsOS "vmtoolsd.exe" ["prog", "--cmd", "info-get guestinfo.a"]).status =
        .exited 3 ∧
      (execAndExit windowsOS "vmtoolsd.exe"
          ["prog", "--cmd", "info-get guestinfo.a"]).calls.map (fun c => c.argv.tail) =
        (execAndExit sampleOS "vmtoolsd.exe"
          ["prog", "--cmd", "info-get guestinfo.a"]).calls.map (fun c => c.argv.tail) :=
  ⟨(backends_agree windowsOS sampleOS "vmtoolsd.exe" ["prog", "--cmd", "info-get guestinfo.a"] 3
      (by decide) (by decide) (by decide) (by decide) (by decide)).2.2.1,
    by decide⟩

/-! ## The key mapping as a relation -/

/-- C18: the key mapping is not injective on pairs of dataset name and key:
the different pairs `("a", "b.c")` and `("a.b", "c")` both map to
`guestinfo.a.b.c`, since the separator is not escaped. -/
theorem key_mapping_not_injective :
    (("a", "b.c") : String × String) ≠ ("a.b", "c") ∧
      getGuestInfoKeyForDatasetNameAndKey "a" "b.c" =
        getGuestInfoKeyForDatasetNameAndKey "a.b" "c" ∧
      getGuestInfoKeyForDatasetNameAndKey "a" "b.c" = "guestinfo.a.b.c" ∧
      ¬ Function.Injective
        (fun p : String × String => getGuestInfoKeyForDatasetNameAndKey p.1 p.2) := by
  refine ⟨by decide, by decide, by decide, fun h => ?_⟩
  have := @h ("a", "b.c") ("a.b", "c") (by decide)
  exact absurd this (by decide)

/-- C19: for a fixed dataset name the key mapping is injective in the key; so
the map built from a set payload has as many entries as the payload has
distinct keys, and two entries collapse into one exactly when their keys are
equal. -/
theorem key_mapping_injective_in_key (d : String) :
    (∀ k1 k2, getGuestInfoKeyForDatasetNameAndKey d k1 =
        getGuestInfoKeyForDatasetNameAndKey d k2 → k1 = k2) ∧
      (∀ entries : List datasetEntry,
        (getGuestInfoKeyValuePairsForDatasetSetPayload ⟨d, entries⟩).length =
          (entries.map datasetEntry.Key).dedup.length) ∧
      (∀ e1 e2 : datasetEntry,
        (getGuestInfoKeyValuePairsForDatasetSetPayload ⟨d, [e1, e2]⟩).length = 1 ↔
          e1.Key = e2.Key) := by
  refine ⟨fun k1 k2 h => getGuestInfoKey_injective d h, fun entries => ?_, fun e1 e2 => ?_⟩
  · have h := kvp_perm (getGuestInfoKeyForDatasetNameAndKey d)
      (getGuestInfoKey_injective d) entries
    simpa [getGuestInfoKeyValuePairsForDatasetSetPayload] using h.length_eq
  · have hinj := getGuestInfoKey_injective d
    by_cases hk : e1.Key = e2.Key
    · simp [getGuestInfoKeyValuePairsForDatasetSetPayload, mapAssign, hk]
    · have hne : ¬ getGuestInfoKeyForDatasetNameAndKey d e1.Key =
          getGuestInfoKeyForDatasetNameAndKey d e2.Key := fun e => hk (hinj e)
      simp [getGuestInfoKeyValuePairsForDatasetSetPayload, mapAssign, hk, hne]

/-! ## Further instances -/

theorem index_zero_is_never_a_flag_witness :
    (datasetRx.FindStringSubmatch
        "datasets-get-entry \x7b\"dataset\":\"x\",\"keys\":[\"k1\"]\x7d").isSome = true ∧
      rewrite sampleOS
          ["--cmd", "datasets-get-entry \x7b\"dataset\":\"x\",\"keys\":[\"k1\"]\x7d"] =
        .ok (["--cmd", "datasets-get-entry \x7b\"dataset\":\"x\",\"keys\":[\"k1\"]\x7d"], []) :=
  ⟨by decide,
    ((index_zero_is_never_a_flag sampleOS "--cmd"
      ["datasets-get-entry \x7b\"dataset\":\"x\",\"keys\":[\"k1\"]\x7d"]).2.2
      "datasets-get-entry \x7b\"dataset\":\"x\",\"keys\":[\"k1\"]\x7d" [] (by decide)).2.2.2.2⟩

theorem common_args_are_args_without_pairs_witness :
    withoutPairs twoFlagArgs = ["prog"] ∧ translatedPairs twoFlagArgs = [1, 3] ∧
      twoFlagArgs.length =
        (withoutPairs twoFlagArgs).length + 2 * (translatedPairs twoFlagArgs).length :=
  ⟨by decide, by decide, (common_args_are_args_without_pairs sampleOS twoFlagArgs).2.2.1⟩

theorem loop_terminates_in_bounds_witness :
    twoFlagArgs.length < 100 ∧
      rewriteLoop sampleOS twoFlagArgs 100 0 [] [] = rewrite sampleOS twoFlagArgs :=
  ⟨by decide, (loop_terminates_in_bounds sampleOS twoFlagArgs).2.1 100 (by decide)⟩

theorem key_mapping_injective_in_key_witness :
    (getGuestInfoKeyValuePairsForDatasetSetPayload
        ⟨"ds", [⟨"a.b", "1"⟩, ⟨"a.b", "2"⟩]⟩).length = 1 ∧
      ¬ (getGuestInfoKeyValuePairsForDatasetSetPayload
        ⟨"ds", [⟨"a", "1"⟩, ⟨"a.b", "2"⟩]⟩).length = 1 :=
  ⟨((key_mapping_injective_in_key "ds").2.2 ⟨"a.b", "1"⟩ ⟨"a.b", "2"⟩).2 rfl,
    fun h => absurd (((key_mapping_injective_in_key "ds").2.2 ⟨"a", "1"⟩ ⟨"a.b", "2"⟩).1 h)
      (by decide)⟩

/-! ## Every matching pair -/

theorem range'_split_at (s n k : Nat) (h : s ≤ k) (hk : k < s + n) :
    List.range' s n = List.range' s (k - s) ++ k :: List.range' (k + 1) (s + n - (k + 1)) := by
  have hn : n = (k - s) + ((s + n - (k + 1)) + 1) := by omega
  conv_lhs => rw [hn]
  rw [range'_split, List.range'_succ]
  have e : s + (k - s) = k := by omega
  rw [e]

theorem translate_exit_iff (os : OS) (k : Nat) (m : String × String) :
    translate os k m [] = .exit 1 ↔
      (m.1 = "datasets-get-entry" ∧ os.unmarshalGet m.2 = none) ∨
        (m.1 = "datasets-set-entry" ∧ os.unmarshalSet m.2 = none) := by
  constructor
  · intro h
    unfold translate at h
    by_cases h1 : m.1 = "datasets-get-entry"
    · rw [if_pos h1] at h
      cases hd : os.unmarshalGet m.2 with
      | none => exact Or.inl ⟨h1, rfl⟩
      | some p =>
        rw [hd] at h
        cases h
    · rw [if_neg h1] at h
      by_cases h2 : m.1 = "datasets-set-entry"
      · rw [if_pos h2] at h
        cases hd : os.unmarshalSet m.2 with
        | none => exact Or.inr ⟨h2, rfl⟩
        | some p =>
          rw [hd] at h
          cases h
      · rw [if_neg h2] at h
        cases h
  · exact translate_fail os k m []

theorem pairFails_iff (os : OS) (args : List String) (k : Nat) (v : String)
    (m : String × String) (hv : args[k + 1]? = some v)
    (hm : datasetRx.FindStringSubmatch v = some m) :
    pairFails os args k = true ↔
      (m.1 = "datasets-get-entry" ∧ os.unmarshalGet m.2 = none) ∨
        (m.1 = "datasets-set-entry" ∧ os.unmarshalSet m.2 = none) := by
  rw [← translate_exit_iff os k m]
  simp [pairFails, hv, hm]

theorem translate_of_not_fails (os : OS) (args : List String) (k : Nat) (v : String)
    (m : String × String) (hv : args[k + 1]? = some v)
    (hm : datasetRx.FindStringSubmatch v = some m) (hf : pairFails os args k = false) :
    translate os k m [] = .ok (pairCommands os args k) := by
  rcases translate_ok_or_exit os k m with ⟨cmds, hc⟩ | hx
  · have h1 := hc []
    rw [List.nil_append] at h1
    simp [pairCommands, hv, hm, h1]
  · have : pairFails os args k = true := by simp [pairFails, hv, hm, hx []]
    rw [hf] at this
    cases this

theorem translatedPairs_split (args : List String) (i j : Nat) (hij : i < j)
    (hi : isFlagAt args i = true) (hj : isFlagAt args j = true) :
    translatedPairs args =
      (List.range' 0 i).filter (isFlagAt args) ++
        i :: ((List.range' (i + 1) (j - (i + 1))).filter (isFlagAt args) ++
          j :: (List.range' (j + 1) (args.length - (j + 1))).filter (isFlagAt args)) := by
  obtain ⟨_, _, v, _, hv, _⟩ := isFlagAt_true args j hj
  have hlen : j + 1 < args.length := (List.getElem?_eq_some_iff.1 hv).1
  have e1 := range'_split_at 0 args.length i (Nat.zero_le _) (by omega)
  have e2 := range'_split_at (i + 1) (args.length - (i + 1)) j (by omega) (by omega)
  have e3 : i + 1 + (args.length - (i + 1)) - (j + 1) = args.length - (j + 1) := by omega
  have e4 : 0 + args.length - (i + 1) = args.length - (i + 1) := by omega
  rw [e3] at e2
  rw [e4, e2, Nat.sub_zero] at e1
  unfold translatedPairs
  rw [List.range_eq_range', e1]
  simp [List.filter_append, hi, hj]

/-- C7, amended: every `--cmd` pair at an index after 0 whose value matches the
dataset pattern is translated, the first and each later one alike.  For two
such pairs at indices `i < j`: both are translated pairs; the run ends with
status 1 exactly when the value of some translated pair fails to decode; and
when none fails, the loop returns as `commonArgs` the vector without the flag
and the value of every translated pair (so the elements at `i`, `i + 1`, `j`
and `j + 1` are not copied) and as generated commands, in argument order, the
commands of the translated pairs before `i`, those of the pair at `i`, those
of the pairs between, those of the pair at `j`, and those of the pairs after. -/
theorem every_matching_pair_is_translated (os : OS) (args : List String) (i j : Nat)
    (vi vj : String) (mi mj : String × String)
    (hi : 0 < i) (hij : i < j)
    (hfi : args[i]? = some "--cmd") (hvi : args[i + 1]? = some vi)
    (hmi : datasetRx.FindStringSubmatch vi = some mi)
    (hfj : args[j]? = some "--cmd") (hvj : args[j + 1]? = some vj)
    (hmj : datasetRx.FindStringSubmatch vj = some mj) :
    (i ∈ translatedPairs args ∧ j ∈ translatedPairs args) ∧
      (rewrite os args = .exit 1 ↔
        ∃ k ∈ translatedPairs args, pairFails os args k = true) ∧
      (∀ k v m, args[k + 1]? = some v → datasetRx.FindStringSubmatch v = some m →
        (pairFails os args k = true ↔
          (m.1 = "datasets-get-entry" ∧ os.unmarshalGet m.2 = none) ∨
            (m.1 = "datasets-set-entry" ∧ os.unmarshalSet m.2 = none))) ∧
      ((∀ k ∈ translatedPairs args, pairFails os args k = false) →
        translate os i mi [] = .ok (pairCommands os args i) ∧
          translate os j mj [] = .ok (pairCommands os args j) ∧
          rewrite os args =
            .ok (withoutPairs args,
              ((List.range' 0 i).filter (isFlagAt args)).flatMap (pairCommands os args) ++
                pairCommands os args i ++
                ((List.range' (i + 1) (j - (i + 1))).filter (isFlagAt args)).flatMap
                  (pairCommands os args) ++
                pairCommands os args j ++
                ((List.range' (j + 1) (args.length - (j + 1))).filter (isFlagAt args)).flatMap
                  (pairCommands os args))) ∧
      withoutPairs args = (List.range args.length).filterMap (fun k =>
        if k ∈ translatedPairs args ∨ k - 1 ∈ translatedPairs args then none else args[k]?) ∧
      (∀ k, k = i ∨ k = i + 1 ∨ k = j ∨ k = j + 1 →
        k ∈ translatedPairs args ∨ k - 1 ∈ translatedPairs args) ∧
      (withoutPairs args).length + 4 ≤ args.length := by
  have hfl_i : isFlagAt args i = true := by simp [isFlagAt, hi, hfi, hvi, hmi]
  have hfl_j : isFlagAt args j = true := by
    simp [isFlagAt, Nat.lt_trans hi hij, hfj, hvj, hmj]
  have hmem_i : i ∈ translatedPairs args := (mem_translatedPairs args i).2 hfl_i
  have hmem_j : j ∈ translatedPairs args := (mem_translatedPairs args j).2 hfl_j
  have hsplit := translatedPairs_split args i j hij hfl_i hfl_j
  refine ⟨⟨hmem_i, hmem_j⟩, ?_, fun k v m hv hm => pairFails_iff os args k v m hv hm, ?_, ?_, ?_, ?_⟩
  · rw [rewrite_closed_form]
    constructor
    · intro h
      by_cases hany : (translatedPairs args).any (pairFails os args) = true
      · obtain ⟨k, hk, hf⟩ := List.any_eq_true.1 hany
        exact ⟨k, hk, hf⟩
      · rw [if_neg hany] at h
        cases h
    · rintro ⟨k, hk, hf⟩
      rw [if_pos (List.any_eq_true.2 ⟨k, hk, hf⟩)]
  · intro hnone
    have hany : ¬ (translatedPairs args).any (pairFails os args) = true := by
      intro h
      obtain ⟨k, hk, hf⟩ := List.any_eq_true.1 h
      rw [hnone k hk] at hf
      cases hf
    refine ⟨translate_of_not_fails os args i vi mi hvi hmi (hnone i hmem_i),
      translate_of_not_fails os args j vj mj hvj hmj (hnone j hmem_j), ?_⟩
    rw [rewrite_closed_form, if_neg hany]
    conv_lhs => rw [hsplit]
    simp [List.flatMap_append, List.append_assoc]
  · unfold withoutPairs
    apply List.filterMap_congr
    intro k _
    simp only [mem_translatedPairs, Bool.or_eq_true]
  · rintro k (rfl | rfl | rfl | rfl)
    · exact Or.inl hmem_i
    · exact Or.inr (by simpa using hmem_i)
    · exact Or.inl hmem_j
    · exact Or.inr (by simpa using hmem_j)
  · have hlen := withoutPairs_length args
    have h2 : 2 ≤ (translatedPairs args).length := by
      rw [hsplit]
      simp only [List.length_append, List.length_cons]
      omega
    omega

theorem every_matching_pair_is_translated_witness :
    twoFlagArgs[1]? = some "--cmd" ∧ twoFlagArgs[3]? = some "--cmd" ∧
      translatedPairs twoFlagArgs = [1, 3] ∧
      rewrite sampleOS twoFlagArgs =
        .ok (withoutPairs twoFlagArgs,
          ((List.range' 0 1).filter (isFlagAt twoFlagArgs)).flatMap
              (pairCommands sampleOS twoFlagArgs) ++
            pairCommands sampleOS twoFlagArgs 1 ++
            ((List.range' (1 + 1) (3 - (1 + 1))).filter (isFlagAt twoFlagArgs)).flatMap
              (pairCommands sampleOS twoFlagArgs) ++
            pairCommands sampleOS twoFlagArgs 3 ++
            ((List.range' (3 + 1) (twoFlagArgs.length - (3 + 1))).filter
              (isFlagAt twoFlagArgs)).flatMap (pairCommands sampleOS twoFlagArgs)) ∧
      withoutPairs twoFlagArgs = ["prog"] ∧
      pairCommands sampleOS twoFlagArgs 1 = ["info-get guestinfo.x.k1"] ∧
      pairCommands sampleOS twoFlagArgs 3 =
        ["info-get guestinfo.y.k2", "info-get guestinfo.y.k3"] :=
  ⟨by decide, by decide, by decide,
    ((every_matching_pair_is_translated sampleOS twoFlagArgs 1 3
      "datasets-get-entry \x7b\"dataset\":\"x\",\"keys\":[\"k1\"]\x7d"
      "datasets-get-entry \x7b\"dataset\":\"y\",\"keys\":[\"k2\",\"k3\"]\x7d"
      ("datasets-get-entry", "\x7b\"dataset\":\"x\",\"keys\":[\"k1\"]\x7d")
      ("datasets-get-entry", "\x7b\"dataset\":\"y\",\"keys\":[\"k2\",\"k3\"]\x7d")
      (by decide) (by decide) (by decide) (by decide) (by decide) (by decide) (by decide)
      (by decide)).2.2.2.1 (by decide)).2.2,
    by decide, by decide, by decide⟩

end Dsp
